import Mathlib

/-!
Verification development for the SHMatcher-NG post-processing pipeline
(`bin/postprocess_single_linkage.py`, `bin/aggregate_matches.py`,
`bin/parse_best_hits.py`).

The Python sources are shallowly embedded:
* TSV files are lists of already-split rows (`List (List String)`); CSV
  quoting is a boundary concern and is not modelled.
* Python dicts become association lists with in-place overwrite
  (`dictSet`) and `find?`-based lookup (`dictGet?`); iteration order of
  dicts never matters for the embedded code paths (all iteration happens
  over explicit lists in the sources).
* Python floats parsed from decimal literals are modelled exactly as
  scaled decimals (`PyFloat`, value = `num / 10 ^ expo`); binary64
  rounding, `inf`/`nan` and digit underscores are not modelled.
* Code that can raise an uncaught Python exception is modelled in
  `Except String`; the error payload carries the message shape.
-/

/-! ### Association-list dictionaries (Python `dict`) -/

/-- Lookup in an association list (Python `d.get(k)` / `d[k]`). -/
def dictGet? {β : Type} (d : List (String × β)) (k : String) : Option β :=
  (d.find? (fun p => decide (p.1 = k))).map (fun p => p.2)

/-- In-place overwrite-or-append update (Python `d[k] = v`). -/
def dictSet {β : Type} (d : List (String × β)) (k : String) (v : β) :
    List (String × β) :=
  match d with
  | [] => [(k, v)]
  | (k', v') :: rest =>
      if k' = k then (k', v) :: rest else (k', v') :: dictSet rest k v

/-! ### Python `set` of strings, modelled as a duplicate-free list -/

/-- `s.add(x)` on a set modelled as a list without duplicates. -/
def setInsert (l : List String) (x : String) : List String :=
  if x ∈ l then l else l ++ [x]

/-! ### Python string ordering (lexicographic by code point) -/

/-- Lexicographic `≤` on code-point lists, as Python compares strings. -/
def charListLe : List Char → List Char → Bool
  | [], _ => true
  | _ :: _, [] => false
  | a :: as, b :: bs =>
      if a.toNat < b.toNat then true
      else if a.toNat = b.toNat then charListLe as bs
      else false

/-- Python `s1 <= s2` for strings. -/
def pyStrLe (a b : String) : Prop := charListLe a.data b.data = true

instance : DecidableRel pyStrLe := fun a b => by
  unfold pyStrLe
  infer_instance

/-- Python `sorted` on a list of strings. -/
def pySorted (l : List String) : List String := l.insertionSort pyStrLe

/-! ### ASCII-level Python string helpers

`str.lower`, `str.strip`, `str.startswith` are modelled at the ASCII
level (all identifiers handled by the pipeline are ASCII). -/

/-- ASCII lowercase of one character. -/
def charLower (c : Char) : Char :=
  if 65 ≤ c.toNat ∧ c.toNat ≤ 90 then Char.ofNat (c.toNat + 32) else c

/-- Python `s.lower()`. -/
def pyLower (s : String) : String := ⟨s.data.map charLower⟩

/-- Python whitespace for `str.strip()`. -/
def isPyWs (c : Char) : Bool :=
  c.toNat = 32 || c.toNat = 9 || c.toNat = 10 || c.toNat = 13 ||
  c.toNat = 11 || c.toNat = 12

/-- Python `s.strip()`. -/
def pyStrip (s : String) : String :=
  ⟨((s.data.dropWhile isPyWs).reverse.dropWhile isPyWs).reverse⟩

/-- Python `s.startswith(pre)`. -/
def pyStartsWith (s pre : String) : Bool := pre.data.isPrefixOf s.data

/-! ### Python floats as exact scaled decimals -/

/-- A decimal value `num / 10 ^ expo`, the exact model of a Python float
parsed from a decimal literal. -/
structure PyFloat where
  num : Int
  expo : Nat
deriving DecidableEq

/-- Numeric `<` on decimals, by cross multiplication. -/
def fLt (a b : PyFloat) : Prop := a.num * 10 ^ b.expo < b.num * 10 ^ a.expo

/-- Numeric `=` on decimals, by cross multiplication. -/
def fEq (a b : PyFloat) : Prop := a.num * 10 ^ b.expo = b.num * 10 ^ a.expo

/-- Python unary minus on a float. -/
def fNeg (a : PyFloat) : PyFloat := ⟨-a.num, a.expo⟩

instance (a b : PyFloat) : Decidable (fLt a b) := by unfold fLt; infer_instance

instance (a b : PyFloat) : Decidable (fEq a b) := by unfold fEq; infer_instance

/-- Rational value of a decimal (proof-side only). -/
def fval (a : PyFloat) : ℚ := (a.num : ℚ) / 10 ^ a.expo

/-! ### The best-hit ranking key `(evalue, -bits, -pident)` -/

/-- Python tuple key `(evalue, -bits, -pident)`. -/
abbrev BestKey : Type := PyFloat × PyFloat × PyFloat

/-- Python tuple `<` on keys: strict lexicographic comparison. -/
def keyLt (a b : BestKey) : Prop :=
  fLt a.1 b.1 ∨ (fEq a.1 b.1 ∧
    (fLt a.2.1 b.2.1 ∨ (fEq a.2.1 b.2.1 ∧ fLt a.2.2 b.2.2)))

instance (a b : BestKey) : Decidable (keyLt a b) := by unfold keyLt; infer_instance

/-! ### Python `float(...)` on decimal literals -/

/-- Value of a nonempty all-digit string (`none` otherwise). -/
def digitsToNat? (l : List Char) : Option Nat :=
  match l with
  | [] => none
  | _ =>
      l.foldl (fun acc c =>
        acc.bind (fun n => if c.isDigit then some (n * 10 + (c.toNat - 48)) else none))
        (some 0)

/-- Python `float(s)` restricted to finite decimal literals: optional
surrounding whitespace and sign, integer/fraction digits, optional
exponent.  `inf`, `nan` and digit underscores are not modelled. -/
def pyFloat? (s : String) : Option PyFloat :=
  let l0 := ((s.data.dropWhile isPyWs).reverse.dropWhile isPyWs).reverse
  let sp : Int × List Char :=
    match l0 with
    | '+' :: r => (1, r)
    | '-' :: r => (-1, r)
    | _ => (1, l0)
  let sgn := sp.1
  let l := sp.2
  let mant := l.takeWhile (fun c => !(c == 'e' || c == 'E'))
  let expPart := l.drop mant.length
  let eVal : Option Int :=
    match expPart with
    | [] => some 0
    | _ :: r =>
        match r with
        | '+' :: r2 => (digitsToNat? r2).map (fun n => (n : Int))
        | '-' :: r2 => (digitsToNat? r2).map (fun n => -(n : Int))
        | _ => (digitsToNat? r).map (fun n => (n : Int))
  let ip := mant.takeWhile (fun c => !(c == '.'))
  let dotPart := mant.drop ip.length
  let mk : Option (Nat × Nat) :=
    match dotPart with
    | [] => (digitsToNat? ip).map (fun m => (m, 0))
    | _ :: fr =>
        if ip = [] ∧ fr = [] then none
        else
          match (if ip = [] then some 0 else digitsToNat? ip),
                (if fr = [] then some 0 else digitsToNat? fr) with
          | some i, some f => some (i * 10 ^ fr.length + f, fr.length)
          | _, _ => none
  match mk, eVal with
  | some (m, k), some e =>
      if e ≥ (k : Int) then some ⟨sgn * (m : Int) * 10 ^ (e - k).toNat, 0⟩
      else some ⟨sgn * (m : Int), ((k : Int) - e).toNat⟩
  | _, _ => none

/-! ### Best-hit parsing and selection

Embeds the shared best-hit selection loop of
`parse_best_hits.py:parse_best_hits_mmseqs` (lines 22-69) and the inner
`parse_best_hits` of `postprocess_single_linkage.py` (lines 126-162) /
`aggregate_matches.py` (lines 140-172), which contain the identical loop:
the raw-row parsing of the `try` block is split out into `parseHitRow`
and the `best` dict update into `selectBest`. -/

/-- One successfully parsed best-hit row. -/
structure Hit where
  qid : String
  tid : String
  evalue : PyFloat
  bits : PyFloat
  pident : PyFloat
deriving DecidableEq

/-- The ranking key `(evalue, -bits, -pident)` of a row. -/
def hitKey (h : Hit) : BestKey := (h.evalue, fNeg h.bits, fNeg h.pident)

/-- A `best` dict entry `(key, tid, pident)`. -/
abbrev BestEntry : Type := BestKey × String × PyFloat

/-- `{name: i for i, name in enumerate(columns)}` followed by lookup:
for duplicate names the later index wins, as in a dict comprehension. -/
def headerColIdx (columns : List String) (name : String) : Option Nat :=
  ((columns.enum.filter (fun p => decide (p.2 = name))).getLast?).map (fun p => p.1)

/-- The fixed MMseqs convertalis column order used when no header row is
detected. -/
def defaultColIdx (name : String) : Option Nat :=
  dictGet? [("query", 0), ("target", 1), ("evalue", 2), ("bits", 3),
            ("alnlen", 4), ("pident", 5), ("qcov", 6), ("tcov", 7)] name

/-- The `try` block of the selection loop: extract query, target and the
three numeric scores; `none` models the caught `ValueError`/`IndexError`
(row skipped).  `col_idx["query"]`/`col_idx["target"]` are always present
at the call sites (guaranteed by header detection), so the `KeyError`
case cannot arise. -/
def parseHitRow (ci : String → Option Nat) (row : List String) : Option Hit := do
  let qi ← ci "query"
  let qid ← row.get? qi
  let ti ← ci "target"
  let tid ← row.get? ti
  let ev ← (row.get? ((ci "evalue").getD 2)).bind pyFloat?
  let bs ← (row.get? ((ci "bits").getD 3)).bind pyFloat?
  let pid ← (row.get? ((ci "pident").getD 5)).bind pyFloat?
  some ⟨qid, tid, ev, bs, pid⟩

/-- The `best` dict update loop:
`if prev is None or key < prev[0]: best[qid] = (key, tid, pident)`. -/
def selectBest (best : List (String × BestEntry)) : List Hit → List (String × BestEntry)
  | [] => best
  | h :: rest =>
      let key := hitKey h
      let best' :=
        match dictGet? best h.qid with
        | none => dictSet best h.qid (key, h.tid, h.pident)
        | some prev => if keyLt key prev.1 then dictSet best h.qid (key, h.tid, h.pident) else best
      selectBest best' rest

/-- Modelled from the spec: "the chosen best hit always satisfies lowest
evalue, then highest bits, then highest pident, with the first-seen row
winning exact ties" — the first element of a row list whose key is
minimal. -/
def firstMinSpec : List Hit → Option Hit
  | [] => none
  | h :: rest =>
      match firstMinSpec rest with
      | none => some h
      | some h' => if keyLt (hitKey h') (hitKey h) then some h' else some h

/-- How an already-stored best entry combines with the winner among the
remaining rows of the same query (helper for `selectBest_eq`). -/
def bestCombine (prev : Option BestEntry) (new : Option Hit) : Option BestEntry :=
  match prev, new with
  | p, none => p
  | none, some h => some (hitKey h, h.tid, h.pident)
  | some p, some h => if keyLt (hitKey h) p.1 then some (hitKey h, h.tid, h.pident) else some p

/-- `columns = [c.strip().lower() for c in first]` followed by
`has_header = "query" in columns and "target" in columns`. -/
def ppHasHeader (first : List String) : Bool :=
  let columns := first.map (fun c => pyLower (pyStrip c))
  decide ("query" ∈ columns) && decide ("target" ∈ columns)

/-- The `col_idx` dict chosen after header detection. -/
def ppColIdx (first : List String) : String → Option Nat :=
  if ppHasHeader first then headerColIdx (first.map (fun c => pyLower (pyStrip c)))
  else defaultColIdx

/-- Header detection and per-row parsing of the inner `parse_best_hits`
of `postprocess_single_linkage.py` / `aggregate_matches.py`: list of
rows that parse successfully, in file order (malformed rows skipped by
the catch-all `except`).  Without a header the first line is treated as
a data row (`rows_iter = [first]`). -/
def ppHits (first : List String) (rest : List (List String)) : List Hit :=
  (if ppHasHeader first then rest else first :: rest).filterMap (parseHitRow (ppColIdx first))

/-- The inner `parse_best_hits` of `postprocess_single_linkage.py`
(lines 126-162) and `aggregate_matches.py` (lines 140-172): returns
`(q2best_ref, q2pident)`. -/
def parse_best_hits (rows : List (List String)) :
    List (String × String) × List (String × PyFloat) :=
  match rows with
  | [] => ([], [])
  | first :: rest =>
      let best := selectBest [] (ppHits first rest)
      (best.map (fun p => (p.1, p.2.2.1)), best.map (fun p => (p.1, p.2.2.2)))

/-- Row parsing of `parse_best_hits_mmseqs`: identical to `ppHits` but
rows whose column count differs from 8 are skipped before the `try`
block. -/
def mmseqsHits (first : List String) (rest : List (List String)) : List Hit :=
  (if ppHasHeader first then rest else first :: rest).filterMap
    (fun row => if row.length = 8 then parseHitRow (ppColIdx first) row else none)

/-- `parse_best_hits.py:parse_best_hits_mmseqs` (lines 22-69).  The
`.error` case models the `ValueError` raised when the first line does
not have exactly 8 columns. -/
def parse_best_hits_mmseqs (rows : List (List String)) :
    Except String (List (String × String) × List (String × PyFloat)) :=
  match rows with
  | [] => .ok ([], [])
  | first :: rest =>
      if first.length ≠ 8 then
        .error ("MMseqs2 best hits file has " ++ toString first.length ++
          " columns, expected 8 (query,target,evalue,bits,alnlen,pident,qcov,tcov)")
      else
        let best := selectBest [] (mmseqsHits first rest)
        .ok (best.map (fun p => (p.1, p.2.2.1)), best.map (fun p => (p.1, p.2.2.2)))

/-- Update the value at an existing key; `none` if the key is absent
(models `d[k]` update where a missing `k` would be a `KeyError`). -/
def assocUpdate? {β : Type} : List (String × β) → String → (β → β) → Option (List (String × β))
  | [], _, _ => none
  | (k, v) :: rest, key, f =>
      if k = key then some ((k, f v) :: rest)
      else (assocUpdate? rest key f).map (fun r => (k, v) :: r)

namespace Postprocess

/-- `postprocess_single_linkage.py` line 52. -/
def THRESHOLDS : List String := ["0.030", "0.025", "0.020", "0.015", "0.010", "0.005"]

/-- One output row `(query, best_ref, status, sh_code, extra, threshold)`. -/
structure Record where
  query : String
  best_ref : String
  status : String
  sh_code : String
  extra : String
  threshold : String
deriving DecidableEq

/-- One row of `load_cluster_members` (lines 62-71). -/
def lcmStep (cluster_id : String) (acc : List String × List String) (row : List String) :
    List String × List String :=
  if row.length < 3 then acc
  else
    let cid := row.getD 0 ""
    let mtype := row.getD 1 ""
    let mid := row.getD 2 ""
    if cid ≠ cluster_id then acc
    else if pyStartsWith (pyLower mtype) "q" then (setInsert acc.1 mid, acc.2)
    else if pyStartsWith (pyLower mtype) "r" then (acc.1, setInsert acc.2 mid)
    else acc

/-- `load_cluster_members` (lines 55-72): `(query_ids, ref_ids)` for the
given cluster id.  The `not exists` early return corresponds to empty
`rows`. -/
def load_cluster_members (rows : List (List String)) (cluster_id : String) :
    List String × List String :=
  rows.foldl (lcmStep cluster_id) ([], [])

/-- `clusters.setdefault(cid, []).append(sid)` (line 86). -/
def addMember (cs : List (String × List String)) (cid sid : String) :
    List (String × List String) :=
  match cs with
  | [] => [(cid, [sid])]
  | (c, ms) :: rest =>
      if c = cid then (c, ms ++ [sid]) :: rest else (c, ms) :: addMember rest cid sid

/-- Row loop of `load_clusters` (lines 80-86).  A non-empty row with a
single field raises an uncaught `IndexError` at `row[1]`. -/
def loadClustersGo (clusters : List (String × List String)) :
    List (List String) → Except String (List (String × List String))
  | [] => .ok clusters
  | row :: rest =>
      if row.length = 0 then loadClustersGo clusters rest
      else if row.length < 2 then .error "IndexError: list index out of range"
      else loadClustersGo (addMember clusters (row.getD 0 "") (row.getD 1 "")) rest

/-- `load_clusters` (lines 75-87). -/
def load_clusters (rows : List (List String)) : Except String (List (String × List String)) :=
  loadClustersGo [] rows

/-- `invert_membership` (lines 90-95): member -> cluster key, later
insertions overwriting earlier ones. -/
def invert_membership (clusters : List (String × List String)) : List (String × String) :=
  clusters.foldl (fun m p => p.2.foldl (fun m2 s => dictSet m2 s p.1) m) []

/-- `map_by_th` construction (lines 169-177). -/
def build_map_by_th (rows : List (List String)) : List (String × List (String × String)) :=
  rows.foldl
    (fun m row =>
      if row.length < 3 then m
      else
        match assocUpdate? m (row.getD 1 "") (fun d => dictSet d (row.getD 2 "") (row.getD 0 "")) with
        | some m' => m'
        | none => m)
    (["1", "2", "3", "4", "5", "6"].map (fun c => (c, ([] : List (String × String)))))

/-- `th_to_code` (lines 181-188). -/
def th_to_code : List (String × String) :=
  [("03", "1"), ("0.030", "1"),
   ("02", "2"), ("0.020", "2"),
   ("01", "3"), ("0.010", "3"),
   ("025", "4"), ("0.025", "4"),
   ("015", "5"), ("0.015", "5"),
   ("005", "6"), ("0.005", "6")]

/-- Index of the last `.` in a character list. -/
def lastDotIdx (cs : List Char) : Option Nat :=
  ((cs.enum.filter (fun p => p.2 == '.')).getLast?).map (fun p => p.1)

/-- `pathlib.Path(name).stem`: the name without its final suffix; a dot
at position 0 or at the very end does not start a suffix. -/
def pathStem (name : String) : String :=
  match lastDotIdx name.data with
  | some i => if 0 < i ∧ i < name.data.length - 1 then ⟨name.data.take i⟩ else name
  | none => name

/-- The non-greedy `(.+?)` of `re.search(r"mx_cluster_(.+?)_out_", stem)`
at a fixed position: the shortest non-empty run of non-newline characters
followed by `_out_`. -/
def findBody : List Char → Option (List Char)
  | [] => none
  | c :: rest =>
      if c = '\n' then none
      else if "_out_".data.isPrefixOf rest then some [c]
      else (findBody rest).map (fun b => c :: b)

/-- `re.search(r"mx_cluster_(.+?)_out_", stem)` and `group(1)`: tried at
each start position left to right. -/
def searchClusterId : List Char → Option String
  | [] => none
  | s@(_ :: rest) =>
      if "mx_cluster_".data.isPrefixOf s then
        match findBody (s.drop 11) with
        | some b => some ⟨b⟩
        | none => searchClusterId rest
      else searchClusterId rest

/-- Python `" ".join(members)`. -/
def joinSpace : List String → String
  | [] => ""
  | [s] => s
  | s :: rest => s ++ " " ++ joinSpace rest

/-- The per-query body of the resolver loop
(`postprocess_single_linkage.py` lines 209-265).  `m` is
`map_by_th[th_code]`.  In the mixed-members branch (lines 247-257) the
`for r in ref_in_cluster` loop body never runs because that branch is
only reached when `ref_in_cluster` is empty, so the record stays
`missing`. -/
def resolveQuery (query_ids ref_ids : List String)
    (clusters : List (String × List String)) (membership : List (String × String))
    (q2best : List (String × String)) (m : List (String × String))
    (th : String) (q : String) : Record :=
  let best_ref := (dictGet? q2best q).getD ""
  match dictGet? membership q with
  | none => ⟨q, best_ref, "missing", "", "", th⟩
  | some cid =>
      let members := (dictGet? clusters cid).getD []
      let ref_in_cluster := (members.filter (fun x => decide (x ∈ ref_ids))).dedup
      let best_sh := if best_ref ≠ "" then (dictGet? m best_ref).getD "" else ""
      if best_ref ≠ "" ∧ best_ref ∈ ref_in_cluster then
        ⟨q, best_ref, "present", best_sh, "", th⟩
      else if ref_in_cluster = [] then
        if members.all (fun x => decide (x ∈ query_ids)) then
          if members.length = 1 then ⟨q, best_ref, "singleton", best_sh, "", th⟩
          else ⟨q, best_ref, "new cluster", best_sh, joinSpace members, th⟩
        else ⟨q, best_ref, "missing", "", "", th⟩
      else
        let pick := (pySorted ref_in_cluster).headD ""
        ⟨q, best_ref, "present", (dictGet? m pick).getD "", "", th⟩

/-- Cluster aggregation for one threshold (lines 199-207): each file's
clusters keyed by `f"{f.stem}_{cid}"`.  `files` are the `(name, rows)`
pairs of the sorted glob `*_out_{th}`. -/
def buildClustersGo (clusters : List (String × List String)) :
    List (String × List (List String)) → Except String (List (String × List String))
  | [] => .ok clusters
  | f :: rest =>
      match load_clusters f.2 with
      | .error e => .error e
      | .ok part =>
          buildClustersGo
            (part.foldl (fun cl cm => dictSet cl (pathStem f.1 ++ "_" ++ cm.1) cm.2) clusters)
            rest

/-- See `buildClustersGo`. -/
def buildClusters (files : List (String × List (List String))) :
    Except String (List (String × List String)) :=
  buildClustersGo [] files

/-- One iteration of the `for th in THRESHOLDS` loop (lines 196-265). -/
def resolveTh (query_ids ref_ids : List String) (q2best : List (String × String))
    (map_by_th : List (String × List (String × String)))
    (filesByTh : String → List (String × List (List String))) (th : String) :
    Except String (List Record) :=
  let th_code := (dictGet? th_to_code th).getD ""
  match buildClusters (filesByTh th) with
  | .error e => .error e
  | .ok clusters =>
      let membership := invert_membership clusters
      let m := (dictGet? map_by_th th_code).getD []
      .ok ((pySorted query_ids).map
        (resolveQuery query_ids ref_ids clusters membership q2best m th))

/-- The whole `for th in THRESHOLDS` loop; records in emission order. -/
def runThs (query_ids ref_ids : List String) (q2best : List (String × String))
    (map_by_th : List (String × List (String × String)))
    (filesByTh : String → List (String × List (List String))) :
    List String → Except String (List Record)
  | [] => .ok []
  | th :: rest =>
      match resolveTh query_ids ref_ids q2best map_by_th filesByTh th with
      | .error e => .error e
      | .ok blk =>
          match runThs query_ids ref_ids q2best map_by_th filesByTh rest with
          | .error e => .error e
          | .ok more => .ok (blk ++ more)

/-- `main` of `postprocess_single_linkage.py` (lines 98-265):
`clusterFiles` is the sorted `*_out_*` glob of the clusters directory,
`filesByTh` the sorted `*_out_{th}` glob (file system boundary).  Both
`raise RuntimeError` sites (lines 115-119) happen before the output file
is opened, so an error means no records are produced. -/
def resolverMain (clusterFiles : List String)
    (filesByTh : String → List (String × List (List String)))
    (membershipRows bestHitRows c2shRows : List (List String)) :
    Except String (List Record) :=
  match clusterFiles with
  | [] => .error "No clustering output files found"
  | f :: _ =>
      match searchClusterId (pathStem f).data with
      | none => .error ("Cannot parse cluster ID from filename: " ++ f)
      | some cluster_id =>
          let qr := load_cluster_members membershipRows cluster_id
          let pb := parse_best_hits bestHitRows
          let map_by_th := build_map_by_th c2shRows
          runThs qr.1 qr.2 pb.1 map_by_th filesByTh THRESHOLDS

end Postprocess

namespace Aggregate

/-- `aggregate_matches.py` line 75. -/
def THRESHOLDS : List String := ["03", "025", "02", "015", "01", "005"]

/-- `aggregate_matches.py` line 76. -/
def THRESHOLDS_DEC : List String := ["0.030", "0.025", "0.020", "0.015", "0.010", "0.005"]

/-- `aggregate_matches.py` line 77, in literal order. -/
def TH_ALIAS : List (String × String) :=
  [("03", "0.030"), ("025", "0.025"), ("02", "0.020"),
   ("015", "0.015"), ("01", "0.010"), ("005", "0.005")]

/-- The alias loop of `read_matches_aggregated` (lines 98-101):
`for k, v in TH_ALIAS.items(): if th == v: th = k; break`. -/
def normalizeTh (th : String) : String :=
  match TH_ALIAS.find? (fun p => decide (p.2 = th)) with
  | some p => p.1
  | none => th

/-- `per_th`: legacy threshold key -> (query -> raw record row). -/
abbrev PerTh := List (String × List (String × List String))

/-- `per_th[th][q] = row` (line 102); `.error` models the uncaught
`KeyError` when `th` is not one of the six legacy keys. -/
def perThSet (pt : PerTh) (th q : String) (row : List String) : Except String PerTh :=
  match assocUpdate? pt th (fun d => dictSet d q row) with
  | some pt' => .ok pt'
  | none => .error ("KeyError: " ++ th)

/-- `per_th[th].get(q)`. -/
def perThGet (pt : PerTh) (th q : String) : Option (List String) :=
  match dictGet? pt th with
  | some d => dictGet? d q
  | none => none

/-- The row loop of `read_matches_aggregated` (lines 90-102). -/
def readRowsGo (pt : PerTh) (allQ : List String) :
    List (List String) → Except String (PerTh × List String)
  | [] => .ok (pt, allQ)
  | row :: rest =>
      if row.length < 6 then readRowsGo pt allQ rest
      else
        let q := row.getD 0 ""
        let allQ' := setInsert allQ q
        match perThSet pt (normalizeTh (row.getD 5 "")) q row with
        | .ok pt' => readRowsGo pt' allQ' rest
        | .error e => .error e

/-- The file loop of `read_matches_aggregated` (lines 84-102):
`next(h, None)` drops the first line of each file. -/
def readFilesGo (pt : PerTh) (allQ : List String) :
    List (List (List String)) → Except String (PerTh × List String)
  | [] => .ok (pt, allQ)
  | file :: rest =>
      match readRowsGo pt allQ (file.drop 1) with
      | .ok s => readFilesGo s.1 s.2 rest
      | .error e => .error e

/-- `read_matches_aggregated` (lines 80-103): `(per_th, sorted queries)`. -/
def read_matches_aggregated (files : List (List (List String))) :
    Except String (PerTh × List String) :=
  match readFilesGo (THRESHOLDS.map (fun th => (th, ([] : List (String × List String))))) [] files with
  | .ok s => .ok (s.1, pySorted s.2)
  | .error e => .error e

/-- `load_map_file` (lines 106-114). -/
def load_map_file (rows : List (List String)) (key_idx val_idx : Nat) :
    List (String × String) :=
  rows.foldl
    (fun m row =>
      if row.length ≤ max key_idx val_idx then m
      else dictSet m (row.getD key_idx "") (row.getD val_idx ""))
    []

/-- The `ucl2tax` loop (lines 189-194). -/
def load_ucl2tax (rows : List (List String)) : List (String × String) :=
  rows.foldl
    (fun m row => if 3 ≤ row.length then dictSet m (row.getD 1 "") (row.getD 2 "") else m)
    []

/-- Python `t.split("_", 1)` when an underscore exists: the parts before
and after the first `_`. -/
def splitUnderscore : List Char → Option (List Char × List Char)
  | [] => none
  | c :: rest =>
      if c = '_' then some ([], rest)
      else (splitUnderscore rest).map (fun p => (c :: p.1, p.2))

/-- `extract_sh_code_from_target` (lines 177-183). -/
def extract_sh_code_from_target (t : String) : String :=
  if t = "" then ""
  else
    match splitUnderscore t.data with
    | none => ""
    | some p => if pyStartsWith ⟨p.2⟩ "SH" then ⟨p.2⟩ else ""

/-- The per-threshold body of the output loop (lines 221-265): returns
the `[status, sh_code, tax]` columns for threshold `th` and the updated
`(compound_ucl, compound_tax)` accumulator. -/
def thTriple (pt : PerTh) (sh2tax sh2ucl ucl2tax : List (String × String)) (q th : String)
    (comp : String × String) : List String × (String × String) :=
  match perThGet pt th q with
  | none => (["", "", ""], comp)
  | some m =>
      let status_raw := m.getD 2 ""
      let best_ref := m.getD 1 ""
      let sh_maybe := m.getD 3 ""
      if status_raw = "present" then
        let sh_code :=
          if sh_maybe ≠ "" ∧ pyStartsWith sh_maybe "SH" then sh_maybe
          else extract_sh_code_from_target best_ref
        let tax := (dictGet? sh2tax sh_code).getD ""
        if comp.1 = "" ∧ sh_code ≠ "" ∧ (dictGet? sh2ucl sh_code).isSome then
          let ucl := (dictGet? sh2ucl sh_code).getD ""
          (["present_in", sh_code, tax], (ucl, (dictGet? ucl2tax ucl).getD ""))
        else (["present_in", sh_code, tax], comp)
      else if status_raw = "new cluster" then
        if sh_maybe ≠ "" then
          let ucl :=
            if pyStartsWith sh_maybe "UCL" then sh_maybe
            else (dictGet? sh2ucl sh_maybe).getD ""
          let tax := (dictGet? ucl2tax ucl).getD ""
          if comp.1 = "" ∧ ucl ≠ "" then (["new_sh_in", "", tax], (ucl, tax))
          else (["new_sh_in", "", tax], comp)
        else (["new_sh_in", "", ""], comp)
      else if status_raw = "singleton" then
        if sh_maybe ≠ "" then
          let ucl :=
            if pyStartsWith sh_maybe "UCL" then sh_maybe
            else (dictGet? sh2ucl sh_maybe).getD ""
          let tax := (dictGet? ucl2tax ucl).getD ""
          if comp.1 = "" ∧ ucl ≠ "" then (["new_singleton_in", "", tax], (ucl, tax))
          else (["new_singleton_in", "", tax], comp)
        else (["new_singleton_in", "", ""], comp)
      else (["", "", ""], comp)

/-- The `for th in [...]` loop of the output stage (lines 221-265),
threading the compound accumulator left to right. -/
def aggTriples (pt : PerTh) (sh2tax sh2ucl ucl2tax : List (String × String)) (q : String) :
    String × String → List String → List (List String) × (String × String)
  | comp, [] => ([], comp)
  | comp, th :: rest =>
      let r := thTriple pt sh2tax sh2ucl ucl2tax q th comp
      let more := aggTriples pt sh2tax sh2ucl ucl2tax q r.2 rest
      (r.1 :: more.1, more.2)

/-- Stand-in for Python `str(float)` in the trailing pident column; no
claim theorem depends on the rendered digits. -/
def pyFloatStr (v : PyFloat) : String := toString v.num ++ "e-" ++ toString v.expo

/-- One output data row (lines 212-274). -/
def aggRow (pt : PerTh) (sh2tax sh2ucl ucl2tax : List (String × String))
    (q2best : List (String × String)) (q2pident : List (String × PyFloat)) (q : String) :
    List String :=
  let tr := aggTriples pt sh2tax sh2ucl ucl2tax q ("", "") THRESHOLDS
  ([q, q] ++ tr.1.flatten) ++ [tr.2.1, tr.2.2] ++
    [(dictGet? q2best q).getD "", ((dictGet? q2pident q).map pyFloatStr).getD ""]

/-- `main` of `aggregate_matches.py` (lines 117-274), up to the data
rows written after the fixed header line. -/
def aggregate_rows (matchFiles : List (List (List String)))
    (bestHitRows shsRows sh2cRows compRows : List (List String)) :
    Except String (List (List String)) :=
  match read_matches_aggregated matchFiles with
  | .error e => .error e
  | .ok s =>
      let pb := parse_best_hits bestHitRows
      let sh2tax := load_map_file shsRows 0 1
      let sh2ucl := load_map_file sh2cRows 0 1
      let ucl2tax := load_ucl2tax compRows
      .ok (s.2.map (aggRow s.1 sh2tax sh2ucl ucl2tax pb.1 pb.2))

/-- Whether a processed row (of a file body, header dropped) carries a
record for `(q, th)` after threshold normalization. -/
def matchesRowFor (th q : String) (row : List String) : Bool :=
  decide (6 ≤ row.length) && decide (row.getD 0 "" = q) &&
    decide (normalizeTh (row.getD 5 "") = th)

/-- The last record row read for `(q, th)` across all files in read
order (headers dropped). -/
def lastRecord (files : List (List (List String))) (th q : String) : Option (List String) :=
  ((files.map (fun f => (f.drop 1).filter (matchesRowFor th q))).flatten).getLast?

end Aggregate

/-! ### Library lemmas about the embedding -/

theorem dictGet?_dictSet_self {β : Type} (d : List (String × β)) (k : String) (v : β) :
    dictGet? (dictSet d k v) k = some v := by
  induction d with
  | nil => simp [dictSet, dictGet?, List.find?]
  | cons p rest ih =>
      by_cases h : p.1 = k
      · simp [dictSet, dictGet?, List.find?, h]
      · simp only [dictSet]
        rw [if_neg h]
        simpa [dictGet?, List.find?, h] using ih

theorem dictGet?_dictSet_ne {β : Type} (d : List (String × β)) (k k' : String) (v : β)
    (h : k ≠ k') : dictGet? (dictSet d k v) k' = dictGet? d k' := by
  induction d with
  | nil => simp [dictSet, dictGet?, List.find?, h]
  | cons p rest ih =>
      by_cases hp : p.1 = k
      · subst hp
        simp [dictSet, dictGet?, List.find?, h]
      · simp only [dictSet]
        rw [if_neg hp]
        by_cases hk' : p.1 = k'
        · simp [dictGet?, List.find?, hk']
        · simpa [dictGet?, List.find?, hk'] using ih

theorem dictGet?_map_snd {β γ : Type} (d : List (String × β)) (f : β → γ) (k : String) :
    dictGet? (d.map (fun p => (p.1, f p.2))) k = (dictGet? d k).map f := by
  induction d with
  | nil => simp [dictGet?]
  | cons p rest ih =>
      by_cases h : p.1 = k
      · simp [dictGet?, List.find?, h]
      · simpa [dictGet?, List.find?, h] using ih

theorem setInsert_nodup {l : List String} (h : l.Nodup) (x : String) :
    (setInsert l x).Nodup := by
  unfold setInsert
  split
  · exact h
  · next hx => simpa [List.nodup_append] using ⟨h, hx⟩

theorem mem_setInsert_self (l : List String) (x : String) : x ∈ setInsert l x := by
  unfold setInsert
  split
  · assumption
  · simp

theorem mem_setInsert_of_mem (l : List String) (x y : String) (h : y ∈ l) :
    y ∈ setInsert l x := by
  unfold setInsert
  split
  · exact h
  · simp [h]

theorem charListLe_total : ∀ a b : List Char, charListLe a b = true ∨ charListLe b a = true
  | [], _ => by left; rfl
  | _ :: _, [] => by right; rfl
  | a :: as, b :: bs => by
      rcases Nat.lt_trichotomy a.toNat b.toNat with h | h | h
      · left; simp [charListLe, h]
      · rcases charListLe_total as bs with ih | ih
        · left; simp [charListLe, h, Nat.lt_irrefl, ih]
        · right; simp [charListLe, h.symm, Nat.lt_irrefl, ih]
      · right; simp [charListLe, h]

theorem charListLe_trans : ∀ a b c : List Char,
    charListLe a b = true → charListLe b c = true → charListLe a c = true
  | [], _, _ => by intro _ _; rfl
  | a :: as, [], c => by intro h _; exact absurd h (by simp [charListLe])
  | a :: as, b :: bs, [] => by intro _ h; exact absurd h (by simp [charListLe])
  | a :: as, b :: bs, c :: cs => by
      intro hab hbc
      by_cases h1 : a.toNat < b.toNat
      · by_cases h2 : b.toNat < c.toNat
        · simp [charListLe, Nat.lt_trans h1 h2]
        · by_cases h2' : b.toNat = c.toNat
          · simp [charListLe, h2' ▸ h1]
          · exact absurd hbc (by simp [charListLe, h2, h2'])
      · by_cases h1' : a.toNat = b.toNat
        · by_cases h2 : b.toNat < c.toNat
          · simp [charListLe, h1' ▸ h2]
          · by_cases h2' : b.toNat = c.toNat
            · have has : charListLe as bs = true := by
                simpa [charListLe, h1, h1'] using hab
              have hbs : charListLe bs cs = true := by
                simpa [charListLe, h2, h2'] using hbc
              simp [charListLe, h1' ▸ h2, h1'.trans h2', Nat.lt_irrefl,
                charListLe_trans as bs cs has hbs]
            · exact absurd hbc (by simp [charListLe, h2, h2'])
        · exact absurd hab (by simp [charListLe, h1, h1'])

instance : IsTotal String pyStrLe :=
  ⟨fun a b => charListLe_total a.data b.data⟩

instance : IsTrans String pyStrLe :=
  ⟨fun a b c => charListLe_trans a.data b.data c.data⟩

theorem pySorted_perm (l : List String) : (pySorted l).Perm l :=
  List.perm_insertionSort pyStrLe l

theorem pySorted_head_le (l : List String) (hne : pySorted l ≠ []) :
    ∀ x ∈ l, pyStrLe ((pySorted l).headD "") x := by
  intro x hx
  have hs : (pySorted l).Sorted pyStrLe := List.sorted_insertionSort pyStrLe l
  have hx' : x ∈ pySorted l := ((pySorted_perm l).mem_iff).mpr hx
  rcases hcons : pySorted l with _ | ⟨a, t⟩
  · exact absurd hcons hne
  · rw [hcons] at hx' hs
    rcases List.mem_cons.mp hx' with h | h
    · subst h
      simp only [List.headD]
      rcases charListLe_total x.data x.data with h | h <;> exact h
    · have := (List.sorted_cons.mp hs).1 x h
      simpa [hcons] using this

theorem pySorted_head_mem (l : List String) (hne : pySorted l ≠ []) :
    (pySorted l).headD "" ∈ l := by
  cases hps : pySorted l with
  | nil => exact absurd hps hne
  | cons a t =>
      have : a ∈ pySorted l := by rw [hps]; simp
      simpa [hps] using ((pySorted_perm l).mem_iff).mp this

theorem fLt_iff_val {a b : PyFloat} : fLt a b ↔ fval a < fval b := by
  unfold fLt fval
  rw [div_lt_div_iff₀ (by positivity) (by positivity)]
  constructor
  · intro h; exact_mod_cast h
  · intro h; exact_mod_cast h

theorem fEq_iff_val {a b : PyFloat} : fEq a b ↔ fval a = fval b := by
  unfold fEq fval
  rw [div_eq_div_iff (by positivity) (by positivity)]
  constructor
  · intro h; exact_mod_cast h
  · intro h; exact_mod_cast h

theorem keyLt_iff {a b : BestKey} : keyLt a b ↔
    (fval a.1 < fval b.1 ∨ (fval a.1 = fval b.1 ∧
      (fval a.2.1 < fval b.2.1 ∨ (fval a.2.1 = fval b.2.1 ∧ fval a.2.2 < fval b.2.2)))) := by
  unfold keyLt
  rw [fLt_iff_val, fEq_iff_val, fLt_iff_val, fEq_iff_val, fLt_iff_val]

theorem keyLt_trans {a b c : BestKey} (h1 : keyLt a b) (h2 : keyLt b c) : keyLt a c := by
  rw [keyLt_iff] at h1 h2 ⊢
  rcases h1 with h1 | ⟨e1, h1 | ⟨f1, g1⟩⟩ <;>
    rcases h2 with h2 | ⟨e2, h2 | ⟨f2, g2⟩⟩
  all_goals first
    | (left; linarith)
    | (right; refine ⟨by linarith, ?_⟩; first
        | (left; linarith)
        | (right; exact ⟨by linarith, by linarith⟩))

theorem keyLt_of_not_keyLt_of_keyLt {a b c : BestKey}
    (hba : ¬ keyLt b a) (hbc : keyLt b c) : keyLt a c := by
  rw [keyLt_iff] at hba hbc ⊢
  push_neg at hba
  obtain ⟨h1, h2⟩ := hba
  rcases hbc with hc | ⟨ec, hc⟩
  · left; linarith
  · rcases eq_or_lt_of_le h1 with e | e
    · obtain ⟨h3, h4⟩ := h2 e.symm
      refine Or.inr ⟨by linarith, ?_⟩
      rcases hc with hc | ⟨fc, gc⟩
      · left; linarith
      · rcases eq_or_lt_of_le h3 with e2 | e2
        · exact Or.inr ⟨by linarith, by linarith [h4 e2.symm]⟩
        · left; linarith
    · left; linarith

theorem keyLt_irrefl (a : BestKey) : ¬ keyLt a a := by
  rw [keyLt_iff]
  rintro (h | ⟨_, h | ⟨_, h⟩⟩) <;> exact lt_irrefl _ h

theorem keyLt_asymm {a b : BestKey} (h : keyLt a b) : ¬ keyLt b a :=
  fun h' => keyLt_irrefl a (keyLt_trans h h')

theorem firstMinSpec_cons_none {rest : List Hit} {a : Hit}
    (hf : firstMinSpec rest = none) : firstMinSpec (a :: rest) = some a := by
  simp [firstMinSpec, hf]

theorem firstMinSpec_cons_some {rest : List Hit} {a h' : Hit}
    (hf : firstMinSpec rest = some h') :
    firstMinSpec (a :: rest) =
      if keyLt (hitKey h') (hitKey a) then some h' else some a := by
  simp [firstMinSpec, hf]

theorem firstMinSpec_eq_none {l : List Hit} : firstMinSpec l = none ↔ l = [] := by
  cases l with
  | nil => simp [firstMinSpec]
  | cons a rest =>
      cases hf : firstMinSpec rest with
      | none => simp [firstMinSpec_cons_none hf]
      | some h' =>
          rw [firstMinSpec_cons_some hf]
          by_cases hk : keyLt (hitKey h') (hitKey a) <;> simp [hk]

theorem firstMinSpec_mem : ∀ {l : List Hit} {h : Hit}, firstMinSpec l = some h → h ∈ l := by
  intro l
  induction l with
  | nil => intro h hc; simp [firstMinSpec] at hc
  | cons a rest ih =>
      intro h hc
      cases hf : firstMinSpec rest with
      | none =>
          rw [firstMinSpec_cons_none hf] at hc
          cases hc
          simp
      | some h' =>
          rw [firstMinSpec_cons_some hf] at hc
          by_cases hk : keyLt (hitKey h') (hitKey a)
          · rw [if_pos hk] at hc
            cases hc
            exact List.mem_cons_of_mem a (ih hf)
          · rw [if_neg hk] at hc
            cases hc
            simp

theorem firstMinSpec_min : ∀ {l : List Hit} {h : Hit}, firstMinSpec l = some h →
    ∀ x ∈ l, ¬ keyLt (hitKey x) (hitKey h) := by
  intro l
  induction l with
  | nil => intro h hc; simp [firstMinSpec] at hc
  | cons a rest ih =>
      intro h hc x hx
      cases hf : firstMinSpec rest with
      | none =>
          rw [firstMinSpec_cons_none hf] at hc
          cases hc
          have hrest : rest = [] := firstMinSpec_eq_none.mp hf
          subst hrest
          have hxa : x = a := by simpa using hx
          subst hxa
          exact keyLt_irrefl _
      | some h' =>
          rw [firstMinSpec_cons_some hf] at hc
          by_cases hk : keyLt (hitKey h') (hitKey a)
          · rw [if_pos hk] at hc
            cases hc
            rcases List.mem_cons.mp hx with hxa | hxr
            · subst hxa; exact keyLt_asymm hk
            · exact ih hf x hxr
          · rw [if_neg hk] at hc
            cases hc
            rcases List.mem_cons.mp hx with hxa | hxr
            · subst hxa; exact keyLt_irrefl _
            · intro hxa
              exact hk (keyLt_of_not_keyLt_of_keyLt (ih hf x hxr) hxa)

theorem firstMinSpec_first : ∀ {l : List Hit} {h : Hit}, firstMinSpec l = some h →
    ∃ i, l.get? i = some h ∧
      ∀ j x, j < i → l.get? j = some x → keyLt (hitKey h) (hitKey x) := by
  intro l
  induction l with
  | nil => intro h hc; simp [firstMinSpec] at hc
  | cons a rest ih =>
      intro h hc
      cases hf : firstMinSpec rest with
      | none =>
          rw [firstMinSpec_cons_none hf] at hc
          cases hc
          exact ⟨0, by simp, fun j x hj _ => absurd hj (Nat.not_lt_zero j)⟩
      | some h' =>
          rw [firstMinSpec_cons_some hf] at hc
          by_cases hk : keyLt (hitKey h') (hitKey a)
          · rw [if_pos hk] at hc
            cases hc
            obtain ⟨i, hi, hmin⟩ := ih hf
            refine ⟨i + 1, by simpa using hi, ?_⟩
            intro j x hj hx
            cases j with
            | zero =>
                have hxa : a = x := by simpa using hx
                subst hxa; exact hk
            | succ j' =>
                exact hmin j' x (Nat.lt_of_succ_lt_succ hj) (by simpa using hx)
          · rw [if_neg hk] at hc
            cases hc
            exact ⟨0, by simp, fun j x hj _ => absurd hj (Nat.not_lt_zero j)⟩

theorem selectBest_cons (best : List (String × BestEntry)) (h : Hit) (rest : List Hit) :
    selectBest best (h :: rest) =
      selectBest
        (match dictGet? best h.qid with
         | none => dictSet best h.qid (hitKey h, h.tid, h.pident)
         | some prev =>
             if keyLt (hitKey h) prev.1 then dictSet best h.qid (hitKey h, h.tid, h.pident)
             else best)
        rest := rfl

theorem selectBest_eq : ∀ (hits : List Hit) (d : List (String × BestEntry)) (q : String),
    dictGet? (selectBest d hits) q =
      bestCombine (dictGet? d q) (firstMinSpec (hits.filter (fun x => decide (x.qid = q)))) := by
  intro hits
  induction hits with
  | nil =>
      intro d q
      simp only [selectBest, List.filter_nil, firstMinSpec]
      cases dictGet? d q <;> rfl
  | cons h rest ih =>
      intro d q
      rw [selectBest_cons]
      by_cases hq : h.qid = q
      · subst hq
        rw [List.filter_cons_of_pos (by simp)]
        cases hprev : dictGet? d h.qid with
        | none =>
            dsimp only
            rw [ih, dictGet?_dictSet_self]
            cases hf : firstMinSpec (rest.filter (fun x => decide (x.qid = h.qid))) with
            | none => rw [firstMinSpec_cons_none hf]; rfl
            | some h' =>
                rw [firstMinSpec_cons_some hf]
                by_cases hk : keyLt (hitKey h') (hitKey h)
                · rw [if_pos hk]; simp [bestCombine, hk]
                · rw [if_neg hk]; simp [bestCombine, hk]
        | some prev =>
            dsimp only
            by_cases hlt : keyLt (hitKey h) prev.1
            · rw [if_pos hlt, ih, dictGet?_dictSet_self]
              cases hf : firstMinSpec (rest.filter (fun x => decide (x.qid = h.qid))) with
              | none => rw [firstMinSpec_cons_none hf]; simp [bestCombine, hlt]
              | some h' =>
                  rw [firstMinSpec_cons_some hf]
                  by_cases hk : keyLt (hitKey h') (hitKey h)
                  · rw [if_pos hk]
                    have htr : keyLt (hitKey h') prev.1 := keyLt_trans hk hlt
                    simp [bestCombine, hk, htr]
                  · rw [if_neg hk]; simp [bestCombine, hk, hlt]
            · rw [if_neg hlt, ih, hprev]
              cases hf : firstMinSpec (rest.filter (fun x => decide (x.qid = h.qid))) with
              | none => rw [firstMinSpec_cons_none hf]; simp [bestCombine, hlt]
              | some h' =>
                  rw [firstMinSpec_cons_some hf]
                  by_cases hk : keyLt (hitKey h') (hitKey h)
                  · rw [if_pos hk]
                  · rw [if_neg hk]
                    have hnp : ¬ keyLt (hitKey h') prev.1 :=
                      fun hcon => hlt (keyLt_of_not_keyLt_of_keyLt hk hcon)
                    simp [bestCombine, hlt, hnp]
      · rw [List.filter_cons_of_neg (by simp [hq])]
        cases hprev : dictGet? d h.qid with
        | none =>
            dsimp only
            rw [ih, dictGet?_dictSet_ne _ _ _ _ hq]
        | some prev =>
            dsimp only
            by_cases hlt : keyLt (hitKey h) prev.1
            · rw [if_pos hlt, ih, dictGet?_dictSet_ne _ _ _ _ hq]
            · rw [if_neg hlt, ih]

theorem assocUpdate?_isSome {β : Type} (d : List (String × β)) (key : String) (f : β → β) :
    (assocUpdate? d key f).isSome ↔ (dictGet? d key).isSome := by
  induction d with
  | nil => simp [assocUpdate?, dictGet?]
  | cons p rest ih =>
      obtain ⟨k, v⟩ := p
      by_cases h : k = key
      · simp [assocUpdate?, dictGet?, List.find?, h]
      · simpa [assocUpdate?, dictGet?, List.find?, h] using ih

theorem assocUpdate?_cons {β : Type} (k : String) (v : β) (rest : List (String × β))
    (key : String) (f : β → β) :
    assocUpdate? ((k, v) :: rest) key f =
      if k = key then some ((k, f v) :: rest)
      else (assocUpdate? rest key f).map (fun r => (k, v) :: r) := rfl

theorem assocUpdate?_get {β : Type} (d : List (String × β)) (key : String) (f : β → β)
    (d' : List (String × β)) (h : assocUpdate? d key f = some d') (k' : String) :
    dictGet? d' k' = if k' = key then (dictGet? d key).map f else dictGet? d k' := by
  induction d generalizing d' with
  | nil => simp [assocUpdate?] at h
  | cons p rest ih =>
      obtain ⟨k, v⟩ := p
      rw [assocUpdate?_cons] at h
      by_cases hk : k = key
      · subst hk
        rw [if_pos rfl] at h
        cases h
        by_cases hk' : k' = k
        · simp [dictGet?, List.find?, hk']
        · have hkk : ¬ (k = k') := fun hc => hk' hc.symm
          simp [dictGet?, List.find?, hk', hkk]
      · rw [if_neg hk] at h
        cases hr : assocUpdate? rest key f with
        | none => rw [hr] at h; simp at h
        | some r =>
            rw [hr] at h
            simp only [Option.map, Option.some.injEq] at h
            subst h
            by_cases hk' : k = k'
            · subst hk'
              simp [dictGet?, List.find?, ih r hr, hk]
            · simpa [dictGet?, List.find?, hk', hk] using ih r hr


/-- C1 (amended): for every query whose cluster at threshold t contains at
least one reference (R nonempty) but not the query's best-hit reference B
(including B empty), the resolver sets status "present" — never "missing" —
and always uses the centroid2sh SH of the lexicographically smallest
reference id in the cluster, regardless of whether B's SH matches the SH
of any cluster member.  The last two conjuncts certify that the picked
reference is a member of R and lexicographically least in it. -/
theorem C1_theorem (query_ids ref_ids : List String)
    (clusters : List (String × List String)) (membership : List (String × String))
    (q2best m : List (String × String)) (th q cid : String) (R : List String)
    (hcid : dictGet? membership q = some cid)
    (hR : R = (((dictGet? clusters cid).getD []).filter (fun x => decide (x ∈ ref_ids))).dedup)
    (hRne : R ≠ [])
    (hB : ¬ ((dictGet? q2best q).getD "" ≠ "" ∧ (dictGet? q2best q).getD "" ∈ R)) :
    (Postprocess.resolveQuery query_ids ref_ids clusters membership q2best m th q).status =
        "present" ∧
    (Postprocess.resolveQuery query_ids ref_ids clusters membership q2best m th q).sh_code =
        (dictGet? m ((pySorted R).headD "")).getD "" ∧
    (pySorted R).headD "" ∈ R ∧
    (∀ x ∈ R, pyStrLe ((pySorted R).headD "") x) := by
  have hsne : pySorted R ≠ [] := by
    intro hc
    apply hRne
    have hp := pySorted_perm R
    rw [hc] at hp
    exact hp.symm.eq_nil
  have hrq : Postprocess.resolveQuery query_ids ref_ids clusters membership q2best m th q =
      ⟨q, (dictGet? q2best q).getD "", "present",
        (dictGet? m ((pySorted R).headD "")).getD "", "", th⟩ := by
    unfold Postprocess.resolveQuery
    rw [hcid]
    simp only [← hR]
    rw [if_neg hB, if_neg hRne]
  refine ⟨by rw [hrq], by rw [hrq], pySorted_head_mem R hsne, pySorted_head_le R hsne⟩

/-- C1 as stated is false on the code: the cluster of q1 is
{q1, ra, rb}, its reference members are ra and rb, the best-hit reference
B is outside the cluster, and B's centroid2sh SH ("SHY") equals the SH of
cluster member rb — so the claim requires the shared SH "SHY" — yet the
resolver emits the SH of the lexicographically smallest reference ra,
"SHX".  (The shared-SH check of the source sits in the branch where the
reference set is empty and never fires.) -/
theorem C1_counterexample :
    (Postprocess.resolveQuery ["q1"] ["ra", "rb"] [("c1", ["q1", "ra", "rb"])]
        (Postprocess.invert_membership [("c1", ["q1", "ra", "rb"])])
        [("q1", "B")] [("ra", "SHX"), ("rb", "SHY"), ("B", "SHY")] "0.030" "q1") =
      ⟨"q1", "B", "present", "SHX", "", "0.030"⟩ ∧
    dictGet? [("ra", "SHX"), ("rb", "SHY"), ("B", "SHY")] "B" = some "SHY" ∧
    dictGet? [("ra", "SHX"), ("rb", "SHY"), ("B", "SHY")] "rb" = some "SHY" ∧
    ("SHX" : String) ≠ "SHY" := by
  refine ⟨by decide, by decide, by decide, by decide⟩

/-- Witness for C1 (amended), at the counterexample input. -/
theorem C1_witness :
    (Postprocess.resolveQuery ["q1"] ["ra", "rb"] [("c1", ["q1", "ra", "rb"])]
        (Postprocess.invert_membership [("c1", ["q1", "ra", "rb"])])
        [("q1", "B")] [("ra", "SHX"), ("rb", "SHY"), ("B", "SHY")] "0.030" "q1").status =
        "present" ∧
    (Postprocess.resolveQuery ["q1"] ["ra", "rb"] [("c1", ["q1", "ra", "rb"])]
        (Postprocess.invert_membership [("c1", ["q1", "ra", "rb"])])
        [("q1", "B")] [("ra", "SHX"), ("rb", "SHY"), ("B", "SHY")] "0.030" "q1").sh_code =
        (dictGet? [("ra", "SHX"), ("rb", "SHY"), ("B", "SHY")]
          ((pySorted ["ra", "rb"]).headD "")).getD "" ∧
    (pySorted ["ra", "rb"]).headD "" ∈ ["ra", "rb"] ∧
    (∀ x ∈ ["ra", "rb"], pyStrLe ((pySorted ["ra", "rb"]).headD "") x) :=
  C1_theorem ["q1"] ["ra", "rb"] [("c1", ["q1", "ra", "rb"])]
    (Postprocess.invert_membership [("c1", ["q1", "ra", "rb"])])
    [("q1", "B")] [("ra", "SHX"), ("rb", "SHY"), ("B", "SHY")] "0.030" "q1" "c1" ["ra", "rb"]
    (by decide) (by decide) (by decide) (by decide)

/-- C6: the threshold-to-code mapping sends each legacy alias and its
decimal form to the same code: 03/0.030 to 1, 02/0.020 to 2, 01/0.010 to
3, 025/0.025 to 4, 015/0.015 to 5, 005/0.005 to 6. -/
theorem C6_theorem :
    dictGet? Postprocess.th_to_code "03" = some "1" ∧
    dictGet? Postprocess.th_to_code "0.030" = some "1" ∧
    dictGet? Postprocess.th_to_code "02" = some "2" ∧
    dictGet? Postprocess.th_to_code "0.020" = some "2" ∧
    dictGet? Postprocess.th_to_code "01" = some "3" ∧
    dictGet? Postprocess.th_to_code "0.010" = some "3" ∧
    dictGet? Postprocess.th_to_code "025" = some "4" ∧
    dictGet? Postprocess.th_to_code "0.025" = some "4" ∧
    dictGet? Postprocess.th_to_code "015" = some "5" ∧
    dictGet? Postprocess.th_to_code "0.015" = some "5" ∧
    dictGet? Postprocess.th_to_code "005" = some "6" ∧
    dictGet? Postprocess.th_to_code "0.005" = some "6" := by
  refine ⟨?_, ?_, ?_, ?_, ?_, ?_, ?_, ?_, ?_, ?_, ?_, ?_⟩ <;> decide

/-- C8: if the sorted cluster-file glob is empty, or the first file name's
stem has no parsable `mx_cluster_(.+?)_out_` cluster id, the resolver
main fails with an error before producing any records. -/
theorem C8_theorem (clusterFiles : List String)
    (filesByTh : String → List (String × List (List String)))
    (membershipRows bestHitRows c2shRows : List (List String))
    (h : clusterFiles = [] ∨
      Postprocess.searchClusterId (Postprocess.pathStem (clusterFiles.headD "")).data = none) :
    ∃ e, Postprocess.resolverMain clusterFiles filesByTh membershipRows bestHitRows c2shRows =
      .error e := by
  cases clusterFiles with
  | nil => exact ⟨_, rfl⟩
  | cons f rest =>
      rcases h with h | h
      · exact absurd h (by simp)
      · simp only [List.headD] at h
        have he : Postprocess.resolverMain (f :: rest) filesByTh membershipRows bestHitRows
            c2shRows = .error ("Cannot parse cluster ID from filename: " ++ f) := by
          unfold Postprocess.resolverMain
          dsimp only
          rw [h]
        exact ⟨_, he⟩

/-- Witness for C8 at a file name without the expected pattern. -/
theorem C8_witness :
    ∃ e, Postprocess.resolverMain ["bogus.txt"] (fun _ => []) [] [] [] = .error e :=
  C8_theorem ["bogus.txt"] (fun _ => []) [] [] [] (Or.inr (by decide))

/-- C7 as stated is false on the code: a best-hit file whose first row is
malformed (7 columns) makes `parse_best_hits_mmseqs` raise ValueError
instead of skipping it, even though a well-formed row follows. -/
theorem C7_counterexample :
    parse_best_hits_mmseqs
        [["q1", "t1", "1e-5", "200", "300", "99.0", "1.0"],
         ["q1", "t2", "1e-5", "200", "300", "99.0", "1.0", "1.0"]] =
      .error ("MMseqs2 best hits file has 7 columns, expected 8 " ++
        "(query,target,evalue,bits,alnlen,pident,qcov,tcov)") := by rfl

/-- C7 (amended): in `parse_best_hits_mmseqs`, any malformed row after
the first line (wrong column count or unparsable score) is silently
skipped — deleting it does not change the result; the resolver's inner
`parse_best_hits` likewise skips any malformed row after the first line.
A first line with wrong column count instead raises, see the
counterexample. -/
theorem C7_theorem (first bad : List String) (xs ys : List (List String)) :
    ((bad.length ≠ 8 ∨ parseHitRow (ppColIdx first) bad = none) →
      parse_best_hits_mmseqs (first :: (xs ++ bad :: ys)) =
        parse_best_hits_mmseqs (first :: (xs ++ ys))) ∧
    (parseHitRow (ppColIdx first) bad = none →
      parse_best_hits (first :: (xs ++ bad :: ys)) = parse_best_hits (first :: (xs ++ ys))) := by
  constructor
  · intro hbad
    have hfb : (if bad.length = 8 then parseHitRow (ppColIdx first) bad else none) = none := by
      rcases hbad with h | h
      · simp [h]
      · by_cases hl : bad.length = 8 <;> simp [hl, h]
    have hh : mmseqsHits first (xs ++ bad :: ys) = mmseqsHits first (xs ++ ys) := by
      unfold mmseqsHits
      by_cases hhd : ppHasHeader first <;>
        simp [hhd, List.filterMap_append, List.filterMap_cons, hfb]
    unfold parse_best_hits_mmseqs
    dsimp only
    rw [hh]
  · intro hbad
    have hh : ppHits first (xs ++ bad :: ys) = ppHits first (xs ++ ys) := by
      unfold ppHits
      by_cases hhd : ppHasHeader first <;>
        simp [hhd, List.filterMap_append, List.filterMap_cons, hbad]
    unfold parse_best_hits
    dsimp only
    rw [hh]

/-- Witness for C7 (amended): deleting the malformed row ["oops"] leaves
both parsers' results unchanged. -/
theorem C7_witness :
    (parse_best_hits_mmseqs
        [["q1", "t1", "1e-5", "200", "300", "99.0", "1.0", "1.0"], ["oops"],
         ["q1", "t2", "1e-6", "200", "300", "99.0", "1.0", "1.0"]] =
      parse_best_hits_mmseqs
        [["q1", "t1", "1e-5", "200", "300", "99.0", "1.0", "1.0"],
         ["q1", "t2", "1e-6", "200", "300", "99.0", "1.0", "1.0"]]) ∧
    (parse_best_hits
        [["q1", "t1", "1e-5", "200", "300", "99.0", "1.0", "1.0"], ["oops"],
         ["q1", "t2", "1e-6", "200", "300", "99.0", "1.0", "1.0"]] =
      parse_best_hits
        [["q1", "t1", "1e-5", "200", "300", "99.0", "1.0", "1.0"],
         ["q1", "t2", "1e-6", "200", "300", "99.0", "1.0", "1.0"]]) :=
  by
  have h1 := C7_theorem ["q1", "t1", "1e-5", "200", "300", "99.0", "1.0", "1.0"] ["oops"] []
    [["q1", "t2", "1e-6", "200", "300", "99.0", "1.0", "1.0"]]
  exact ⟨h1.1 (by decide), h1.2 (by decide)⟩

/-- C5: the best hit selected by `parse_best_hits_mmseqs` for a query q
is exactly the first row (in file order) among q's well-formed rows whose
key (evalue asc, bits desc, pident desc) is lexicographically minimal:
the first conjunct identifies the selected target with `firstMinSpec` of
q's parsed rows, and the second shows `firstMinSpec` returns a member
with minimal key that strictly beats every earlier row (ties keep the
earlier row). -/
theorem C5_theorem :
    (∀ (first : List String) (rest : List (List String)) (b : List (String × String))
        (p : List (String × PyFloat)) (q : String),
        parse_best_hits_mmseqs (first :: rest) = .ok (b, p) →
        dictGet? b q =
          (firstMinSpec ((mmseqsHits first rest).filter (fun x => decide (x.qid = q)))).map
            (fun h => h.tid)) ∧
    (∀ (l : List Hit) (h : Hit), firstMinSpec l = some h →
        h ∈ l ∧ (∀ x ∈ l, ¬ keyLt (hitKey x) (hitKey h)) ∧
        ∃ i, l.get? i = some h ∧
          ∀ j x, j < i → l.get? j = some x → keyLt (hitKey h) (hitKey x)) := by
  constructor
  · intro first rest b p q hok
    unfold parse_best_hits_mmseqs at hok
    dsimp only at hok
    by_cases hl : first.length ≠ 8
    · rw [if_pos hl] at hok
      exact absurd hok (by simp)
    · rw [if_neg hl] at hok
      rw [Except.ok.injEq, Prod.mk.injEq] at hok
      obtain ⟨hb, hp⟩ := hok
      subst hb
      rw [dictGet?_map_snd (selectBest [] (mmseqsHits first rest)) (fun e => e.2.1) q,
        selectBest_eq]
      have h0 : dictGet? ([] : List (String × BestEntry)) q = none := rfl
      rw [h0]
      cases firstMinSpec ((mmseqsHits first rest).filter (fun x => decide (x.qid = q))) with
      | none => rfl
      | some h => rfl
  · intro l h hf
    exact ⟨firstMinSpec_mem hf, firstMinSpec_min hf, firstMinSpec_first hf⟩

/-- Witness for C5 at concrete rows. -/
theorem C5_witness :
    (dictGet? [("q1", "r2")] "q1" =
      (firstMinSpec ((mmseqsHits ["q1", "r1", "1e-10", "200", "300", "99.0", "1.0", "1.0"]
          [["q1", "r2", "1e-12", "100", "300", "98.0", "1.0", "1.0"]]).filter
        (fun x => decide (x.qid = "q1")))).map (fun h => h.tid)) ∧
    ((⟨"q1", "r1", ⟨1, 5⟩, ⟨200, 0⟩, ⟨99, 0⟩⟩ : Hit) ∈
        [(⟨"q1", "r1", ⟨1, 5⟩, ⟨200, 0⟩, ⟨99, 0⟩⟩ : Hit)] ∧
      (∀ x ∈ [(⟨"q1", "r1", ⟨1, 5⟩, ⟨200, 0⟩, ⟨99, 0⟩⟩ : Hit)],
        ¬ keyLt (hitKey x) (hitKey ⟨"q1", "r1", ⟨1, 5⟩, ⟨200, 0⟩, ⟨99, 0⟩⟩)) ∧
      ∃ i, [(⟨"q1", "r1", ⟨1, 5⟩, ⟨200, 0⟩, ⟨99, 0⟩⟩ : Hit)].get? i =
          some ⟨"q1", "r1", ⟨1, 5⟩, ⟨200, 0⟩, ⟨99, 0⟩⟩ ∧
        ∀ j x, j < i →
          [(⟨"q1", "r1", ⟨1, 5⟩, ⟨200, 0⟩, ⟨99, 0⟩⟩ : Hit)].get? j = some x →
          keyLt (hitKey (⟨"q1", "r1", ⟨1, 5⟩, ⟨200, 0⟩, ⟨99, 0⟩⟩ : Hit)) (hitKey x)) :=
  by
  have h1 := C5_theorem
  exact ⟨h1.1 ["q1", "r1", "1e-10", "200", "300", "99.0", "1.0", "1.0"]
      [["q1", "r2", "1e-12", "100", "300", "98.0", "1.0", "1.0"]]
      [("q1", "r2")] [("q1", ⟨980, 1⟩)] "q1" (by rfl),
    h1.2 [⟨"q1", "r1", ⟨1, 5⟩, ⟨200, 0⟩, ⟨99, 0⟩⟩]
      ⟨"q1", "r1", ⟨1, 5⟩, ⟨200, 0⟩, ⟨99, 0⟩⟩ (by decide)⟩

theorem lcmStep_nodup (cid : String) (acc : List String × List String) (row : List String)
    (h : acc.1.Nodup) : ((Postprocess.lcmStep cid acc row).1).Nodup := by
  unfold Postprocess.lcmStep
  dsimp only
  split_ifs <;> first | exact h | exact setInsert_nodup h _

theorem lcmFold_nodup (cid : String) :
    ∀ (rows : List (List String)) (acc : List String × List String), acc.1.Nodup →
      ((rows.foldl (Postprocess.lcmStep cid) acc).1).Nodup
  | [], _, h => h
  | row :: rest, acc, h => lcmFold_nodup cid rest _ (lcmStep_nodup cid acc row h)

theorem load_cluster_members_nodup (rows : List (List String)) (cid : String) :
    ((Postprocess.load_cluster_members rows cid).1).Nodup :=
  lcmFold_nodup cid rows ([], []) List.nodup_nil

theorem resolveQuery_fields (query_ids ref_ids : List String)
    (clusters : List (String × List String)) (membership : List (String × String))
    (q2best m : List (String × String)) (th q : String) :
    (Postprocess.resolveQuery query_ids ref_ids clusters membership q2best m th q).query = q ∧
    (Postprocess.resolveQuery query_ids ref_ids clusters membership q2best m th q).threshold =
      th := by
  unfold Postprocess.resolveQuery
  cases dictGet? membership q
  · exact ⟨rfl, rfl⟩
  · dsimp only
    split_ifs <;> exact ⟨rfl, rfl⟩

theorem resolveTh_count (query_ids ref_ids : List String) (q2best : List (String × String))
    (map_by_th : List (String × List (String × String)))
    (filesByTh : String → List (String × List (List String))) (th : String)
    (blk : List Postprocess.Record) (q t : String)
    (hok : Postprocess.resolveTh query_ids ref_ids q2best map_by_th filesByTh th = .ok blk)
    (hnd : query_ids.Nodup) :
    blk.countP (fun r => decide (r.query = q) && decide (r.threshold = t)) =
      if q ∈ query_ids ∧ t = th then 1 else 0 := by
  unfold Postprocess.resolveTh at hok
  cases hbc : Postprocess.buildClusters (filesByTh th) with
  | error e =>
      rw [hbc] at hok
      exact absurd hok (by simp)
  | ok clusters =>
      rw [hbc] at hok
      simp only [Except.ok.injEq] at hok
      subst hok
      rw [List.countP_map]
      have hcong : ∀ x ∈ pySorted query_ids,
          ((fun r => decide (r.query = q) && decide (r.threshold = t)) ∘
            (Postprocess.resolveQuery query_ids ref_ids clusters
              (Postprocess.invert_membership clusters) q2best
              ((dictGet? map_by_th ((dictGet? Postprocess.th_to_code th).getD "")).getD [])
              th)) x = true ↔
          (decide (x = q) && decide (th = t)) = true := by
        intro x _
        obtain ⟨h1, h2⟩ := resolveQuery_fields query_ids ref_ids clusters
          (Postprocess.invert_membership clusters) q2best
          ((dictGet? map_by_th ((dictGet? Postprocess.th_to_code th).getD "")).getD []) th x
        simp [Function.comp, h1, h2]
      rw [List.countP_congr hcong]
      by_cases ht : t = th
      · subst ht
        simp only [decide_True, Bool.and_true]
        have hperm : (pySorted query_ids).countP (fun x => decide (x = q)) =
            query_ids.countP (fun x => decide (x = q)) :=
          (pySorted_perm query_ids).countP_eq _
        rw [hperm]
        by_cases hq : q ∈ query_ids
        · simp only [hq, true_and, if_true]
          have hcnt : query_ids.countP (fun x => decide (x = q)) = query_ids.count q := by
            unfold List.count
            exact List.countP_congr (fun a _ => by simp)
          rw [hcnt]
          exact List.count_eq_one_of_mem hnd hq
        · simp only [hq, false_and, if_false]
          rw [List.countP_eq_zero]
          intro a ha
          simp only [decide_eq_true_eq]
          intro hc
          exact hq (hc ▸ ha)
      · have hz : ∀ x ∈ pySorted query_ids,
            ¬ ((fun x => decide (x = q) && decide (th = t)) x = true) := by
          intro x _
          simp
          intro _
          exact fun hc => ht hc.symm
        rw [List.countP_eq_zero.mpr hz]
        have hcc : ¬ (q ∈ query_ids ∧ t = th) := fun hc => ht hc.2
        rw [if_neg hcc]

theorem runThs_count (query_ids ref_ids : List String) (q2best : List (String × String))
    (map_by_th : List (String × List (String × String)))
    (filesByTh : String → List (String × List (List String))) (ths : List String) :
    ∀ (recs : List Postprocess.Record) (q t : String),
    Postprocess.runThs query_ids ref_ids q2best map_by_th filesByTh ths = .ok recs →
    ths.Nodup → query_ids.Nodup → q ∈ query_ids →
    recs.countP (fun r => decide (r.query = q) && decide (r.threshold = t)) =
      if t ∈ ths then 1 else 0 := by
  induction ths with
  | nil =>
      intro recs q t hok _ _ _
      cases hok
      simp
  | cons th rest ih =>
      intro recs q t hok hnd hqnd hq
      unfold Postprocess.runThs at hok
      cases hbt : Postprocess.resolveTh query_ids ref_ids q2best map_by_th filesByTh th with
      | error e =>
          rw [hbt] at hok
          exact absurd hok (by simp)
      | ok blk =>
          rw [hbt] at hok
          cases hmr : Postprocess.runThs query_ids ref_ids q2best map_by_th filesByTh rest with
          | error e =>
              rw [hmr] at hok
              exact absurd hok (by simp)
          | ok more =>
              rw [hmr] at hok
              cases hok
              rw [List.countP_append]
              rw [resolveTh_count query_ids ref_ids q2best map_by_th filesByTh th blk q t hbt
                hqnd]
              rw [ih more q t hmr (List.nodup_cons.mp hnd).2 hqnd hq]
              by_cases ht : t = th
              · subst ht
                have hnr : t ∉ rest := (List.nodup_cons.mp hnd).1
                simp [hnr, hq]
              · have : (q ∈ query_ids ∧ t = th) ↔ False := by simp [ht]
                simp [ht, this, List.mem_cons]

/-- C2: for every query q in the compound cluster's membership subset and
every threshold t in the fixed six-threshold list, a successful resolver
run emits exactly one record with query q and threshold t. -/
theorem C2_theorem (membershipRows bestHitRows c2shRows : List (List String))
    (cluster_id : String) (filesByTh : String → List (String × List (List String)))
    (recs : List Postprocess.Record) (q t : String)
    (hok : Postprocess.runThs (Postprocess.load_cluster_members membershipRows cluster_id).1
        (Postprocess.load_cluster_members membershipRows cluster_id).2
        (parse_best_hits bestHitRows).1 (Postprocess.build_map_by_th c2shRows) filesByTh
        Postprocess.THRESHOLDS = .ok recs)
    (hq : q ∈ (Postprocess.load_cluster_members membershipRows cluster_id).1)
    (ht : t ∈ Postprocess.THRESHOLDS) :
    recs.countP (fun r => decide (r.query = q) && decide (r.threshold = t)) = 1 := by
  rw [runThs_count (Postprocess.load_cluster_members membershipRows cluster_id).1
      (Postprocess.load_cluster_members membershipRows cluster_id).2
      (parse_best_hits bestHitRows).1 (Postprocess.build_map_by_th c2shRows) filesByTh
      Postprocess.THRESHOLDS recs q t hok (by decide)
      (load_cluster_members_nodup membershipRows cluster_id) hq,
    if_pos ht]

/-- Witness for C2 on a one-query membership table. -/
theorem C2_witness :
    ([⟨"q1", "", "missing", "", "", "0.030"⟩, ⟨"q1", "", "missing", "", "", "0.025"⟩,
      ⟨"q1", "", "missing", "", "", "0.020"⟩, ⟨"q1", "", "missing", "", "", "0.015"⟩,
      ⟨"q1", "", "missing", "", "", "0.010"⟩, ⟨"q1", "", "missing", "", "", "0.005"⟩] :
        List Postprocess.Record).countP
      (fun r => decide (r.query = "q1") && decide (r.threshold = "0.030")) = 1 :=
  C2_theorem [["c1", "Query", "q1"]] [] [] "c1" (fun _ => [])
    [⟨"q1", "", "missing", "", "", "0.030"⟩, ⟨"q1", "", "missing", "", "", "0.025"⟩,
     ⟨"q1", "", "missing", "", "", "0.020"⟩, ⟨"q1", "", "missing", "", "", "0.015"⟩,
     ⟨"q1", "", "missing", "", "", "0.010"⟩, ⟨"q1", "", "missing", "", "", "0.005"⟩]
    "q1" "0.030" (by rfl) (by decide) (by decide)

theorem thTriple_comp_frozen (pt : Aggregate.PerTh)
    (sh2tax sh2ucl ucl2tax : List (String × String)) (q th : String)
    (comp : String × String) (h : comp.1 ≠ "") :
    (Aggregate.thTriple pt sh2tax sh2ucl ucl2tax q th comp).2 = comp := by
  unfold Aggregate.thTriple
  cases Aggregate.perThGet pt th q with
  | none => rfl
  | some m =>
      dsimp only
      split_ifs <;> first | rfl | simp_all

/-- C4: once the compound (UCL) code accumulator is non-empty, processing
any further thresholds in the iteration order leaves the compound code
and compound taxonomy unchanged, even if a later record carries a
non-empty compound. -/
theorem C4_theorem (pt : Aggregate.PerTh) (sh2tax sh2ucl ucl2tax : List (String × String))
    (q : String) (ths : List String) (comp : String × String) (h : comp.1 ≠ "") :
    (Aggregate.aggTriples pt sh2tax sh2ucl ucl2tax q comp ths).2 = comp := by
  induction ths with
  | nil => rfl
  | cons th rest ih =>
      unfold Aggregate.aggTriples
      dsimp only
      rw [thTriple_comp_frozen pt sh2tax sh2ucl ucl2tax q th comp h]
      exact ih

/-- Witness for C4: a later "new cluster" record with non-empty compound
UCL2 does not override the already-set ("UCL1", "TaxA"). -/
theorem C4_witness :
    (Aggregate.aggTriples
        [("03", []), ("025", [("q1", ["q1", "r1", "new cluster", "UCL2", "", "025"])]),
         ("02", []), ("015", []), ("01", []), ("005", [])]
        [] [("SH9", "UCL2")] [("UCL2", "TaxB")] "q1" ("UCL1", "TaxA")
        Aggregate.THRESHOLDS).2 = ("UCL1", "TaxA") :=
  C4_theorem
    [("03", []), ("025", [("q1", ["q1", "r1", "new cluster", "UCL2", "", "025"])]),
     ("02", []), ("015", []), ("01", []), ("005", [])]
    [] [("SH9", "UCL2")] [("UCL2", "TaxB")] "q1" Aggregate.THRESHOLDS ("UCL1", "TaxA")
    (by decide)

theorem thTriple_fields_length (pt : Aggregate.PerTh)
    (sh2tax sh2ucl ucl2tax : List (String × String)) (q th : String) (comp : String × String) :
    (Aggregate.thTriple pt sh2tax sh2ucl ucl2tax q th comp).1.length = 3 := by
  unfold Aggregate.thTriple
  cases Aggregate.perThGet pt th q
  · rfl
  · dsimp only
    split_ifs <;> rfl

theorem aggTriples_flatten_length (pt : Aggregate.PerTh)
    (sh2tax sh2ucl ucl2tax : List (String × String)) (q : String) :
    ∀ (ths : List String) (comp : String × String),
    ((Aggregate.aggTriples pt sh2tax sh2ucl ucl2tax q comp ths).1.flatten).length =
      3 * ths.length := by
  intro ths
  induction ths with
  | nil => intro comp; rfl
  | cons th rest ih =>
      intro comp
      unfold Aggregate.aggTriples
      dsimp only
      rw [List.flatten_cons, List.length_append, thTriple_fields_length, ih]
      simp only [List.length_cons]
      omega

theorem aggRow_length (pt : Aggregate.PerTh) (sh2tax sh2ucl ucl2tax : List (String × String))
    (q2best : List (String × String)) (q2pident : List (String × PyFloat)) (q : String) :
    (Aggregate.aggRow pt sh2tax sh2ucl ucl2tax q2best q2pident q).length = 24 := by
  unfold Aggregate.aggRow
  dsimp only
  rw [List.length_append, List.length_append, List.length_append, aggTriples_flatten_length]
  simp [Aggregate.THRESHOLDS]

theorem aggRow_head (pt : Aggregate.PerTh) (sh2tax sh2ucl ucl2tax : List (String × String))
    (q2best : List (String × String)) (q2pident : List (String × PyFloat)) (q : String) :
    (Aggregate.aggRow pt sh2tax sh2ucl ucl2tax q2best q2pident q).getD 0 "" = q := rfl

theorem readRowsGo_nodup :
    ∀ (rows : List (List String)) (pt : Aggregate.PerTh) (allQ : List String)
      (pt' : Aggregate.PerTh) (allQ' : List String),
    Aggregate.readRowsGo pt allQ rows = .ok (pt', allQ') → allQ.Nodup → allQ'.Nodup := by
  intro rows
  induction rows with
  | nil =>
      intro pt allQ pt' allQ' hok h
      cases hok
      exact h
  | cons row rest ih =>
      intro pt allQ pt' allQ' hok h
      unfold Aggregate.readRowsGo at hok
      by_cases hl : row.length < 6
      · rw [if_pos hl] at hok
        exact ih pt allQ pt' allQ' hok h
      · rw [if_neg hl] at hok
        dsimp only at hok
        cases hset : Aggregate.perThSet pt (Aggregate.normalizeTh (row.getD 5 ""))
            (row.getD 0 "") row with
        | error e =>
            rw [hset] at hok
            exact absurd hok (by simp)
        | ok ptn =>
            rw [hset] at hok
            exact ih ptn _ pt' allQ' hok (setInsert_nodup h _)

theorem readFilesGo_nodup :
    ∀ (files : List (List (List String))) (pt : Aggregate.PerTh) (allQ : List String)
      (pt' : Aggregate.PerTh) (allQ' : List String),
    Aggregate.readFilesGo pt allQ files = .ok (pt', allQ') → allQ.Nodup → allQ'.Nodup := by
  intro files
  induction files with
  | nil =>
      intro pt allQ pt' allQ' hok h
      cases hok
      exact h
  | cons file rest ih =>
      intro pt allQ pt' allQ' hok h
      unfold Aggregate.readFilesGo at hok
      cases hrr : Aggregate.readRowsGo pt allQ (file.drop 1) with
      | error e =>
          rw [hrr] at hok
          exact absurd hok (by simp)
      | ok s =>
          rw [hrr] at hok
          exact ih s.1 s.2 pt' allQ' hok (readRowsGo_nodup (file.drop 1) pt allQ s.1 s.2 hrr h)

theorem read_matches_nodup (files : List (List (List String))) (pt : Aggregate.PerTh)
    (allQ : List String)
    (hok : Aggregate.read_matches_aggregated files = .ok (pt, allQ)) : allQ.Nodup := by
  unfold Aggregate.read_matches_aggregated at hok
  cases hrf : Aggregate.readFilesGo
      (Aggregate.THRESHOLDS.map (fun th => (th, ([] : List (String × List String))))) []
      files with
  | error e =>
      rw [hrf] at hok
      exact absurd hok (by simp)
  | ok s =>
      rw [hrf] at hok
      simp only [Except.ok.injEq, Prod.mk.injEq] at hok
      obtain ⟨-, hq⟩ := hok
      subst hq
      exact ((pySorted_perm s.2).nodup_iff).mpr
        (readFilesGo_nodup files _ [] s.1 s.2 hrf List.nodup_nil)

/-- C3: every data row of the aggregator output has exactly 24 fields;
every query appearing in any threshold's status records appears exactly
once among the data rows; and an absent or "missing" record yields the
empty-string triple for that threshold's three columns rather than
omitted columns. -/
theorem C3_theorem (matchFiles : List (List (List String)))
    (bestHitRows shsRows sh2cRows compRows : List (List String)) (out : List (List String))
    (hok : Aggregate.aggregate_rows matchFiles bestHitRows shsRows sh2cRows compRows =
      .ok out) :
    (∀ row ∈ out, row.length = 24) ∧
    (∀ (pt : Aggregate.PerTh) (allQ : List String),
      Aggregate.read_matches_aggregated matchFiles = .ok (pt, allQ) →
      ∀ q ∈ allQ, out.countP (fun row => decide (row.getD 0 "" = q)) = 1) ∧
    (∀ (pt : Aggregate.PerTh) (sh2tax sh2ucl ucl2tax : List (String × String))
        (q th : String) (comp : String × String),
      Aggregate.perThGet pt th q = none →
      Aggregate.thTriple pt sh2tax sh2ucl ucl2tax q th comp = (["", "", ""], comp)) ∧
    (∀ (pt : Aggregate.PerTh) (sh2tax sh2ucl ucl2tax : List (String × String))
        (q th : String) (comp : String × String) (m : List String),
      Aggregate.perThGet pt th q = some m → m.getD 2 "" = "missing" →
      Aggregate.thTriple pt sh2tax sh2ucl ucl2tax q th comp = (["", "", ""], comp)) := by
  unfold Aggregate.aggregate_rows at hok
  cases hre : Aggregate.read_matches_aggregated matchFiles with
  | error e =>
      rw [hre] at hok
      exact absurd hok (by simp)
  | ok s =>
      rw [hre] at hok
      simp only [Except.ok.injEq] at hok
      subst hok
      refine ⟨?_, ?_, ?_, ?_⟩
      · intro row hrow
        obtain ⟨q, -, hq⟩ := List.mem_map.mp hrow
        rw [← hq]
        exact aggRow_length _ _ _ _ _ _ q
      · intro pt allQ hread q hq
        simp only [Except.ok.injEq] at hread
        subst hread
        dsimp only at hq ⊢
        rw [List.countP_map]
        have hcong : ∀ x ∈ allQ,
            ((fun row => decide (row.getD 0 "" = q)) ∘
              (Aggregate.aggRow pt (Aggregate.load_map_file shsRows 0 1)
                (Aggregate.load_map_file sh2cRows 0 1) (Aggregate.load_ucl2tax compRows)
                (parse_best_hits bestHitRows).1 (parse_best_hits bestHitRows).2)) x = true ↔
            (decide (x = q)) = true := by
          intro x _
          have hhead := aggRow_head pt (Aggregate.load_map_file shsRows 0 1)
            (Aggregate.load_map_file sh2cRows 0 1) (Aggregate.load_ucl2tax compRows)
            (parse_best_hits bestHitRows).1 (parse_best_hits bestHitRows).2 x
          simp only [List.getD_eq_getElem?_getD] at hhead
          simp [Function.comp, hhead]
        rw [List.countP_congr hcong]
        have hcnt : allQ.countP (fun x => decide (x = q)) = allQ.count q := by
          unfold List.count
          exact List.countP_congr (fun a _ => by simp)
        rw [hcnt]
        exact List.count_eq_one_of_mem (read_matches_nodup matchFiles pt allQ hre) hq
      · intro pt sh2tax sh2ucl ucl2tax q th comp hnone
        unfold Aggregate.thTriple
        rw [hnone]
      · intro pt sh2tax sh2ucl ucl2tax q th comp m hsome hm2
        unfold Aggregate.thTriple
        rw [hsome]
        dsimp only
        rw [hm2]
        rw [if_neg (by decide), if_neg (by decide), if_neg (by decide)]

/-- Witness for C3 on a one-record matches file. -/
theorem C3_witness :
    (∀ row ∈ [["q1", "q1", "present_in", "SH1", "", "", "", "", "", "", "", "", "", "", "",
        "", "", "", "", "", "", "", "", ""]], row.length = 24) ∧
    (∀ (pt : Aggregate.PerTh) (allQ : List String),
      Aggregate.read_matches_aggregated
          [[["query", "best_ref", "status", "sh_code", "extra", "threshold"],
            ["q1", "r1", "present", "SH1", "", "0.030"]]] = .ok (pt, allQ) →
      ∀ q ∈ allQ,
        ([["q1", "q1", "present_in", "SH1", "", "", "", "", "", "", "", "", "", "", "",
          "", "", "", "", "", "", "", "", ""]]).countP
            (fun row => decide (row.getD 0 "" = q)) = 1) ∧
    (∀ (pt : Aggregate.PerTh) (sh2tax sh2ucl ucl2tax : List (String × String))
        (q th : String) (comp : String × String),
      Aggregate.perThGet pt th q = none →
      Aggregate.thTriple pt sh2tax sh2ucl ucl2tax q th comp = (["", "", ""], comp)) ∧
    (∀ (pt : Aggregate.PerTh) (sh2tax sh2ucl ucl2tax : List (String × String))
        (q th : String) (comp : String × String) (m : List String),
      Aggregate.perThGet pt th q = some m → m.getD 2 "" = "missing" →
      Aggregate.thTriple pt sh2tax sh2ucl ucl2tax q th comp = (["", "", ""], comp)) :=
  C3_theorem
    [[["query", "best_ref", "status", "sh_code", "extra", "threshold"],
      ["q1", "r1", "present", "SH1", "", "0.030"]]]
    [] [] [] []
    [["q1", "q1", "present_in", "SH1", "", "", "", "", "", "", "", "", "", "", "",
      "", "", "", "", "", "", "", "", ""]]
    (by rfl)

theorem dictGet?_isSome_iff {β : Type} (d : List (String × β)) (k : String) :
    (dictGet? d k).isSome ↔ k ∈ d.map (fun p => p.1) := by
  induction d with
  | nil => simp [dictGet?]
  | cons p rest ih =>
      by_cases h : p.1 = k
      · simp [dictGet?, List.find?, h]
      · have h' : ¬ k = p.1 := fun hc => h hc.symm
        rw [show dictGet? (p :: rest) k = dictGet? rest k from by
          simp [dictGet?, List.find?, h]]
        simp [h', ih]

theorem assocUpdate?_map_fst {β : Type} (d : List (String × β)) (key : String) (f : β → β) :
    ∀ (d' : List (String × β)), assocUpdate? d key f = some d' →
      d'.map (fun p => p.1) = d.map (fun p => p.1) := by
  induction d with
  | nil => intro d' h; simp [assocUpdate?] at h
  | cons p rest ih =>
      intro d' h
      obtain ⟨k, v⟩ := p
      rw [assocUpdate?_cons] at h
      by_cases hk : k = key
      · rw [if_pos hk] at h
        cases h
        simp
      · rw [if_neg hk] at h
        cases hr : assocUpdate? rest key f with
        | none => rw [hr] at h; simp at h
        | some r =>
            rw [hr] at h
            simp only [Option.map, Option.some.injEq] at h
            subst h
            simp [ih r hr]

theorem perThSet_keys (pt : Aggregate.PerTh) (th q : String) (row : List String)
    (pt' : Aggregate.PerTh) (h : Aggregate.perThSet pt th q row = .ok pt') :
    pt'.map (fun p => p.1) = pt.map (fun p => p.1) := by
  unfold Aggregate.perThSet at h
  cases hu : assocUpdate? pt th (fun d => dictSet d q row) with
  | none => rw [hu] at h; exact absurd h (by simp)
  | some p =>
      rw [hu] at h
      cases h
      exact assocUpdate?_map_fst pt th _ _ hu

theorem perThSet_error_of_not_mem (pt : Aggregate.PerTh) (th q : String) (row : List String)
    (h : th ∉ pt.map (fun p => p.1)) : ∃ e, Aggregate.perThSet pt th q row = .error e := by
  unfold Aggregate.perThSet
  cases hu : assocUpdate? pt th (fun d => dictSet d q row) with
  | none => exact ⟨_, rfl⟩
  | some p =>
      exfalso
      apply h
      rw [← dictGet?_isSome_iff]
      rw [← assocUpdate?_isSome pt th (fun d => dictSet d q row)]
      simp [hu]

theorem readRowsGo_keys :
    ∀ (rows : List (List String)) (pt : Aggregate.PerTh) (allQ : List String)
      (pt' : Aggregate.PerTh) (allQ' : List String),
    Aggregate.readRowsGo pt allQ rows = .ok (pt', allQ') →
    pt'.map (fun p => p.1) = pt.map (fun p => p.1) := by
  intro rows
  induction rows with
  | nil =>
      intro pt allQ pt' allQ' hok
      cases hok
      rfl
  | cons row rest ih =>
      intro pt allQ pt' allQ' hok
      unfold Aggregate.readRowsGo at hok
      by_cases hl : row.length < 6
      · rw [if_pos hl] at hok
        exact ih pt allQ pt' allQ' hok
      · rw [if_neg hl] at hok
        dsimp only at hok
        cases hset : Aggregate.perThSet pt (Aggregate.normalizeTh (row.getD 5 ""))
            (row.getD 0 "") row with
        | error e =>
            rw [hset] at hok
            exact absurd hok (by simp)
        | ok ptn =>
            rw [hset] at hok
            rw [ih ptn _ pt' allQ' hok]
            exact perThSet_keys pt _ _ row ptn hset

theorem normalizeTh_not_dec (th : String) (h : th ∉ Aggregate.THRESHOLDS_DEC) :
    Aggregate.normalizeTh th = th := by
  unfold Aggregate.normalizeTh
  have hfind : Aggregate.TH_ALIAS.find? (fun p => decide (p.2 = th)) = none := by
    rw [List.find?_eq_none]
    intro p hp
    simp only [decide_eq_true_eq]
    intro hc
    exact h (hc ▸ (by fin_cases hp <;> decide : p.2 ∈ Aggregate.THRESHOLDS_DEC))
  rw [hfind]

theorem readRowsGo_error :
    ∀ (rows : List (List String)) (pt : Aggregate.PerTh) (allQ : List String)
      (row : List String), row ∈ rows → 6 ≤ row.length →
    row.getD 5 "" ∉ Aggregate.THRESHOLDS → row.getD 5 "" ∉ Aggregate.THRESHOLDS_DEC →
    pt.map (fun p => p.1) = Aggregate.THRESHOLDS →
    ∃ e, Aggregate.readRowsGo pt allQ rows = .error e := by
  intro rows
  induction rows with
  | nil => intro pt allQ row hm; exact absurd hm (by simp)
  | cons r rest ih =>
      intro pt allQ row hm hlen hb1 hb2 hkeys
      rcases List.mem_cons.mp hm with hm | hm
      · subst hm
        unfold Aggregate.readRowsGo
        rw [if_neg (by omega)]
        dsimp only
        have hnr : Aggregate.normalizeTh (row.getD 5 "") = row.getD 5 "" :=
          normalizeTh_not_dec _ hb2
        obtain ⟨e, he⟩ := perThSet_error_of_not_mem pt (Aggregate.normalizeTh (row.getD 5 ""))
          (row.getD 0 "") row (by rw [hnr, hkeys]; exact hb1)
        rw [he]
        exact ⟨e, rfl⟩
      · unfold Aggregate.readRowsGo
        by_cases hl : r.length < 6
        · rw [if_pos hl]
          exact ih pt allQ row hm hlen hb1 hb2 hkeys
        · rw [if_neg hl]
          dsimp only
          cases hset : Aggregate.perThSet pt (Aggregate.normalizeTh (r.getD 5 ""))
              (r.getD 0 "") r with
          | error e => exact ⟨e, rfl⟩
          | ok ptn =>
              exact ih ptn _ row hm hlen hb1 hb2
                ((perThSet_keys pt _ _ r ptn hset).trans hkeys)

theorem readFilesGo_error :
    ∀ (files : List (List (List String))) (pt : Aggregate.PerTh) (allQ : List String)
      (file : List (List String)) (row : List String),
    file ∈ files → row ∈ file.drop 1 → 6 ≤ row.length →
    row.getD 5 "" ∉ Aggregate.THRESHOLDS → row.getD 5 "" ∉ Aggregate.THRESHOLDS_DEC →
    pt.map (fun p => p.1) = Aggregate.THRESHOLDS →
    ∃ e, Aggregate.readFilesGo pt allQ files = .error e := by
  intro files
  induction files with
  | nil => intro pt allQ file row hf; exact absurd hf (by simp)
  | cons f rest ih =>
      intro pt allQ file row hf hr hlen hb1 hb2 hkeys
      unfold Aggregate.readFilesGo
      rcases List.mem_cons.mp hf with hf | hf
      · subst hf
        obtain ⟨e, he⟩ := readRowsGo_error (file.drop 1) pt allQ row hr hlen hb1 hb2 hkeys
        rw [he]
        exact ⟨e, rfl⟩
      · cases hrr : Aggregate.readRowsGo pt allQ (f.drop 1) with
        | error e => exact ⟨e, rfl⟩
        | ok s =>
            exact ih s.1 s.2 file row hf hr hlen hb1 hb2
              ((readRowsGo_keys (f.drop 1) pt allQ s.1 s.2 hrr).trans hkeys)

/-- C9: a processed matches row (after the header line) with at least six
fields whose sixth field is neither a legacy threshold key nor a decimal
threshold makes `read_matches_aggregated` fail with a KeyError-modelling
error, aborting the whole aggregation run. -/
theorem C9_theorem (files : List (List (List String))) (file : List (List String))
    (row : List String) (hf : file ∈ files) (hr : row ∈ file.drop 1)
    (hlen : 6 ≤ row.length)
    (hb1 : row.getD 5 "" ∉ Aggregate.THRESHOLDS)
    (hb2 : row.getD 5 "" ∉ Aggregate.THRESHOLDS_DEC) :
    ∃ e, Aggregate.read_matches_aggregated files = .error e := by
  obtain ⟨e, he⟩ := readFilesGo_error files
    (Aggregate.THRESHOLDS.map (fun th => (th, ([] : List (String × List String))))) []
    file row hf hr hlen hb1 hb2 (by simp [Function.comp]; rfl)
  refine ⟨e, ?_⟩
  unfold Aggregate.read_matches_aggregated
  rw [he]

/-- Witness for C9 at threshold string "0.042". -/
theorem C9_witness :
    ∃ e, Aggregate.read_matches_aggregated
      [[["query", "best_ref", "status", "sh_code", "extra", "threshold"],
        ["q1", "r1", "present", "SH1", "", "0.042"]]] = .error e :=
  C9_theorem
    [[["query", "best_ref", "status", "sh_code", "extra", "threshold"],
      ["q1", "r1", "present", "SH1", "", "0.042"]]]
    [["query", "best_ref", "status", "sh_code", "extra", "threshold"],
     ["q1", "r1", "present", "SH1", "", "0.042"]]
    ["q1", "r1", "present", "SH1", "", "0.042"]
    (by decide) (by decide) (by decide) (by decide) (by decide)

theorem getLast?_cons_eq {α : Type} (a : α) (l : List α) :
    (a :: l).getLast? =
      match l.getLast? with
      | some r => some r
      | none => some a := by
  cases l with
  | nil => rfl
  | cons b t =>
      rw [List.getLast?_cons_cons]
      cases hlast : (b :: t).getLast? with
      | some r => rfl
      | none =>
          exfalso
          have : (b :: t) = [] := by
            have := List.getLast?_eq_none_iff.mp hlast
            exact this
          simp at this

theorem getLast?_append_eq {α : Type} (l1 l2 : List α) :
    (l1 ++ l2).getLast? =
      match l2.getLast? with
      | some r => some r
      | none => l1.getLast? := by
  induction l1 with
  | nil =>
      simp only [List.nil_append]
      cases l2.getLast? <;> rfl
  | cons a t ih =>
      rw [List.cons_append, getLast?_cons_eq, ih, getLast?_cons_eq]
      cases l2.getLast? with
      | some r => rfl
      | none => cases t.getLast? <;> rfl

theorem perThGet_perThSet (pt : Aggregate.PerTh) (th0 q0 : String) (row : List String)
    (pt' : Aggregate.PerTh) (h : Aggregate.perThSet pt th0 q0 row = .ok pt')
    (th q : String) :
    Aggregate.perThGet pt' th q =
      if th = th0 ∧ q = q0 then some row else Aggregate.perThGet pt th q := by
  unfold Aggregate.perThSet at h
  cases hu : assocUpdate? pt th0 (fun d => dictSet d q0 row) with
  | none =>
      rw [hu] at h
      exact absurd h (by simp)
  | some p =>
      rw [hu] at h
      cases h
      unfold Aggregate.perThGet
      rw [assocUpdate?_get pt th0 _ _ hu th]
      by_cases hth : th = th0
      · rw [if_pos hth]
        subst hth
        cases hd : dictGet? pt th with
        | none =>
            exfalso
            have hsome : (assocUpdate? pt th (fun d => dictSet d q0 row)).isSome := by
              simp [hu]
            rw [assocUpdate?_isSome] at hsome
            rw [hd] at hsome
            simp at hsome
        | some d =>
            simp only [Option.map]
            split_ifs with hcnd
            · have hq : q = q0 := hcnd.2
              subst hq
              exact dictGet?_dictSet_self d q row
            · have hq : ¬ q = q0 := fun hc => hcnd (by simp [hc])
              exact dictGet?_dictSet_ne d q0 q row (fun hc => hq hc.symm)
      · rw [if_neg hth, if_neg (fun hc => hth hc.1)]

theorem readRowsGo_last :
    ∀ (rows : List (List String)) (pt : Aggregate.PerTh) (allQ : List String)
      (pt' : Aggregate.PerTh) (allQ' : List String) (th q : String),
    Aggregate.readRowsGo pt allQ rows = .ok (pt', allQ') →
    Aggregate.perThGet pt' th q =
      match (rows.filter (Aggregate.matchesRowFor th q)).getLast? with
      | some r => some r
      | none => Aggregate.perThGet pt th q := by
  intro rows
  induction rows with
  | nil =>
      intro pt allQ pt' allQ' th q hok
      cases hok
      rfl
  | cons row rest ih =>
      intro pt allQ pt' allQ' th q hok
      unfold Aggregate.readRowsGo at hok
      by_cases hl : row.length < 6
      · rw [if_pos hl] at hok
        have hmrf : Aggregate.matchesRowFor th q row = false := by
          unfold Aggregate.matchesRowFor
          have hn : ¬ (6 ≤ row.length) := by omega
          simp [hn]
        rw [List.filter_cons_of_neg (by simp [hmrf])]
        exact ih pt allQ pt' allQ' th q hok
      · rw [if_neg hl] at hok
        dsimp only at hok
        cases hset : Aggregate.perThSet pt (Aggregate.normalizeTh (row.getD 5 ""))
            (row.getD 0 "") row with
        | error e =>
            rw [hset] at hok
            exact absurd hok (by simp)
        | ok ptn =>
            rw [hset] at hok
            rw [ih ptn _ pt' allQ' th q hok]
            rw [perThGet_perThSet pt _ _ row ptn hset th q]
            cases hmrf : Aggregate.matchesRowFor th q row with
            | true =>
                have hcond : th = Aggregate.normalizeTh (row.getD 5 "") ∧ q = row.getD 0 "" := by
                  unfold Aggregate.matchesRowFor at hmrf
                  simp only [Bool.and_eq_true, decide_eq_true_eq] at hmrf
                  exact ⟨hmrf.2.symm, hmrf.1.2.symm⟩
                rw [List.filter_cons_of_pos (by simp [hmrf])]
                rw [getLast?_cons_eq]
                cases hfl : (rest.filter (Aggregate.matchesRowFor th q)).getLast? with
                | some r => rfl
                | none => rw [if_pos hcond]
            | false =>
                have hcond : ¬ (th = Aggregate.normalizeTh (row.getD 5 "") ∧
                    q = row.getD 0 "") := by
                  intro hc
                  unfold Aggregate.matchesRowFor at hmrf
                  rw [← hc.1, ← hc.2] at hmrf
                  have hn : (6 : Nat) ≤ row.length := by omega
                  simp [hn] at hmrf
                rw [List.filter_cons_of_neg (by simp [hmrf])]
                rw [if_neg hcond]

theorem readFilesGo_last :
    ∀ (files : List (List (List String))) (pt : Aggregate.PerTh) (allQ : List String)
      (pt' : Aggregate.PerTh) (allQ' : List String) (th q : String),
    Aggregate.readFilesGo pt allQ files = .ok (pt', allQ') →
    Aggregate.perThGet pt' th q =
      match ((files.map (fun f => (f.drop 1).filter (Aggregate.matchesRowFor th q))).flatten).getLast? with
      | some r => some r
      | none => Aggregate.perThGet pt th q := by
  intro files
  induction files with
  | nil =>
      intro pt allQ pt' allQ' th q hok
      cases hok
      rfl
  | cons f rest ih =>
      intro pt allQ pt' allQ' th q hok
      unfold Aggregate.readFilesGo at hok
      cases hrr : Aggregate.readRowsGo pt allQ (f.drop 1) with
      | error e =>
          rw [hrr] at hok
          exact absurd hok (by simp)
      | ok s =>
          rw [hrr] at hok
          rw [ih s.1 s.2 pt' allQ' th q hok]
          rw [readRowsGo_last (f.drop 1) pt allQ s.1 s.2 th q hrr]
          rw [List.map_cons, List.flatten_cons, getLast?_append_eq]
          cases hfl : ((rest.map (fun f => (f.drop 1).filter
              (Aggregate.matchesRowFor th q))).flatten).getLast? with
          | some r => rfl
          | none =>
              cases hf2 : ((f.drop 1).filter (Aggregate.matchesRowFor th q)).getLast? <;> rfl

/-- C10: the record kept by `read_matches_aggregated` for a pair
(query, threshold) is the last matching row across all files in read
order: whenever `lastRecord` yields a row, the per-threshold table maps
the query to exactly that row, so a record read later silently replaces
an earlier one. -/
theorem C10_theorem (files : List (List (List String))) (pt : Aggregate.PerTh)
    (allQ : List String) (th q : String) (r : List String)
    (hok : Aggregate.read_matches_aggregated files = .ok (pt, allQ))
    (hlast : Aggregate.lastRecord files th q = some r) :
    Aggregate.perThGet pt th q = some r := by
  unfold Aggregate.read_matches_aggregated at hok
  cases hrf : Aggregate.readFilesGo
      (Aggregate.THRESHOLDS.map (fun th => (th, ([] : List (String × List String))))) []
      files with
  | error e =>
      rw [hrf] at hok
      exact absurd hok (by simp)
  | ok s =>
      rw [hrf] at hok
      simp only [Except.ok.injEq, Prod.mk.injEq] at hok
      obtain ⟨hp, -⟩ := hok
      subst hp
      rw [readFilesGo_last files _ [] s.1 s.2 th q hrf]
      unfold Aggregate.lastRecord at hlast
      rw [hlast]

/-- Witness for C10: two files each holding a record for ("q1", 0.030);
the second file's row wins. -/
theorem C10_witness :
    Aggregate.perThGet
      [("03", [("q1", ["q1", "r9", "present", "SH9", "", "03"])]),
       ("025", []), ("02", []), ("015", []), ("01", []), ("005", [])]
      "03" "q1" = some ["q1", "r9", "present", "SH9", "", "03"] :=
  C10_theorem
    [[["query", "best_ref", "status", "sh_code", "extra", "threshold"],
      ["q1", "r1", "present", "SH1", "", "0.030"]],
     [["query", "best_ref", "status", "sh_code", "extra", "threshold"],
      ["q1", "r9", "present", "SH9", "", "03"]]]
    [("03", [("q1", ["q1", "r9", "present", "SH9", "", "03"])]),
     ("025", []), ("02", []), ("015", []), ("01", []), ("005", [])]
    ["q1"] "03" "q1" ["q1", "r9", "present", "SH9", "", "03"] (by rfl) (by rfl)
